import Mathlib

/-!
# SmartStudy (study-pal): accounts, notes and quiz engine

A shallow embedding of `script.js` and the properties of its account directory,
note repository and quiz engine.

Conventions of the embedding.

* The global `AppState` object and the three `localStorage` keys are explicit
  state (`AppState`, `Storage`, together a `World`); every function of the
  script becomes a function from the state before to its result and the state
  after.
* What a function reads from its environment is an explicit argument, in the
  order the script reads it: each `Date.now()` is one `Nat` argument, the
  suffix `Math.random().toString(36).substr(2)` of an id is a `String`
  argument, the answer of `confirm(...)` is a `Bool`, and whether
  `localStorage.setItem` succeeds (it throws when the quota is exceeded, which
  `saveToStorage` catches) is a `Bool`.
* `JSON.stringify` followed by `JSON.parse` is the identity on the record
  shapes stored here (strings and integer timestamps), so the store holds
  typed values; a key that was never written is `none`.
* A JavaScript object used as a mapping from user id to note list is the
  association list of its own properties (`objGet`, `objSet`). The order of the
  entries is a representation only (JavaScript lists integer-like keys first);
  no statement depends on it. The assignment to the key `__proto__` and the
  read of a name inherited from `Object.prototype` are not ordinary
  (`objSet`, `objRead`); the ids made by `generateId` are lower-case base-36
  strings, which are ordinary keys.
* Calls that only touch the DOM (`showAlert`, `renderNotes`, class toggles) have
  no effect on the modelled state and are left out; the state changes made by
  the view functions the operations call (`showDashboard`, `showNotesSection`,
  `showQuizResults`) are kept, and the text `showQuizResults` writes in the
  element `scoreMessage` is the function `shownScoreMessage`.
* The numbers of `getScoreMessage` are IEEE 754 doubles: the quotient and the
  product are the exact results rounded to a 53-bit significand, ties to even
  (`jsDiv`, `jsMul`), on arguments that are integers below `2 ^ 53`.
-/

namespace StudyPal

/-! ## Data model -/

/-- A record of the user directory (`newUser` in `registerUser`). -/
structure User where
  id : String
  name : String
  email : String
  password : String
  createdAt : Nat
deriving DecidableEq, Repr

/-- A note record (`note` in `addNote`). -/
structure Note where
  id : String
  title : String
  content : String
  createdAt : Nat
  updatedAt : Nat
deriving DecidableEq, Repr

/-- An entry of the question bank. -/
structure Question where
  id : Nat
  question : String
  options : List String
  correct : Nat
deriving DecidableEq, Repr

/-- An entry pushed on `AppState.quiz.answers` by `submitQuizAnswer`. -/
structure Answer where
  questionId : Nat
  selected : Nat
  correct : Nat
  isCorrect : Bool
deriving DecidableEq, Repr

/-- The object `AppState.quiz`. -/
structure Quiz where
  questions : List Question
  currentQuestion : Nat
  score : Nat
  answers : List Answer
  isActive : Bool
deriving DecidableEq, Repr

/-- The two values of `AppState.currentView`. -/
inductive View where
  | notes
  | quiz
deriving DecidableEq, Repr

/-- The global `AppState` object. -/
structure AppState where
  currentUser : Option User
  currentView : View
  notes : List Note
  currentNoteId : Option String
  quiz : Quiz
deriving DecidableEq, Repr

/-- The three `localStorage` keys of the application: `smartstudy_users`,
`smartstudy_current_user` and `smartstudy_notes`. `none` is a key that is not set. -/
structure Storage where
  users : Option (List User)
  currentUser : Option User
  notes : Option (List (String × List Note))
deriving DecidableEq, Repr

/-- The whole state: the in-memory `AppState` and the persistent store. -/
structure World where
  app : AppState
  store : Storage
deriving DecidableEq, Repr

/-- The initial value of `AppState` at the top of the script. -/
def initialAppState : AppState :=
  { currentUser := none
    currentView := View.notes
    notes := []
    currentNoteId := none
    quiz := { questions := [], currentQuestion := 0, score := 0, answers := [], isActive := false } }

/-- A store in which no key is set. -/
def emptyStorage : Storage :=
  { users := none, currentUser := none, notes := none }

/-- The constant `QUIZ_QUESTIONS`. -/
def QUIZ_QUESTIONS : List Question :=
  [ { id := 1
      question := "What is the most effective study technique for long-term retention?"
      options := ["Cramming the night before", "Spaced repetition over time",
                  "Reading notes once", "Highlighting everything"]
      correct := 1 },
    { id := 2
      question := "Which environment is best for focused studying?"
      options := ["Noisy coffee shop", "Bed with TV on",
                  "Quiet, well-lit space", "While listening to music"]
      correct := 2 },
    { id := 3
      question := "How long should study sessions typically last for optimal focus?"
      options := ["6-8 hours continuously", "25-50 minutes with breaks",
                  "2-3 hours without breaks", "10-15 minutes only"]
      correct := 1 },
    { id := 4
      question := "What is the Feynman Technique?"
      options := ["Speed reading method", "Memory palace technique",
                  "Explaining concepts in simple terms", "Group study method"]
      correct := 2 },
    { id := 5
      question := "When is the best time to review study material?"
      options := ["Only during exams", "Once a month",
                  "Regularly with increasing intervals", "Never review, just move forward"]
      correct := 2 } ]

/-! ## JavaScript built-ins used by the script -/

/-- The code points `String.prototype.trim` strips: ECMAScript WhiteSpace (TAB, VT, FF,
ZWNBSP and the Unicode space separators) and LineTerminator (LF, CR, LS, PS). -/
def isTrimChar (c : Char) : Bool :=
  let n := c.toNat
  n == 0x09 || n == 0x0A || n == 0x0B || n == 0x0C || n == 0x0D || n == 0x20 ||
  n == 0xA0 || n == 0x1680 || (0x2000 ≤ n && n ≤ 0x200A) || n == 0x2028 ||
  n == 0x2029 || n == 0x202F || n == 0x205F || n == 0x3000 || n == 0xFEFF

/-- The characters of `s.trim()`: the leading run of trimmed characters is dropped, then
the trailing run. -/
def trimChars (l : List Char) : List Char :=
  (l.dropWhile isTrimChar).rdropWhile isTrimChar

/-- The method `String.prototype.trim`. -/
def jsTrim (s : String) : String :=
  ⟨trimChars s.data⟩

/-- The method `Array.prototype.findIndex`; `none` stands for the result `-1`. -/
def findIndex {α : Type} (p : α → Bool) : List α → Option Nat
  | [] => none
  | x :: xs => if p x then some 0 else (findIndex p xs).map (· + 1)

/-- The own property `key` of an object, `none` when the object has no such own property.
It is the read `obj[key]` whenever the key is an own property or is not a name inherited
from `Object.prototype` (see `objRead`); `none` then stands for `undefined`. -/
def objGet {β : Type} (m : List (String × β)) (key : String) : Option β :=
  match m with
  | [] => none
  | (k, v) :: rest => if k = key then some v else objGet rest key

/-- The assignment `obj[key] = value` of an array to a key of an object made by
`JSON.parse` or `{}`: an existing own property is overwritten in place and a new key is
added as an own property, except the key `__proto__`, for which the setter inherited from
`Object.prototype` runs: it replaces the prototype of the object and adds no own
property, so nothing of the assignment is serialised by `JSON.stringify`. -/
def objSet {β : Type} (m : List (String × β)) (key : String) (value : β) :
    List (String × β) :=
  match m with
  | [] => if key = "__proto__" then [] else [(key, value)]
  | (k, v) :: rest => if k = key then (key, value) :: rest else (k, v) :: objSet rest key value

/-- The property names every object inherits from `Object.prototype`. -/
def objectPrototypeKeys : List String :=
  ["constructor", "__defineGetter__", "__defineSetter__", "hasOwnProperty",
   "__lookupGetter__", "__lookupSetter__", "isPrototypeOf", "propertyIsEnumerable",
   "toString", "valueOf", "__proto__", "toLocaleString"]

/-- The three outcomes of the read `obj[key]`: the value of an own property, a function or
object inherited from `Object.prototype` (truthy, and not a note list), or `undefined`. -/
inductive JsRead (β : Type) where
  | own (value : β)
  | inherited
  | undefined
deriving DecidableEq, Repr

/-- The read `obj[key]` along the prototype chain of an object made by `JSON.parse` or
`{}`. -/
def objRead {β : Type} (m : List (String × β)) (key : String) : JsRead β :=
  match objGet m key with
  | some v => JsRead.own v
  | none => if key ∈ objectPrototypeKeys then JsRead.inherited else JsRead.undefined

/-- One digit of `Number.prototype.toString(36)`. -/
def base36Digit (d : Nat) : Char :=
  if d < 10 then Char.ofNat (48 + d) else Char.ofNat (87 + d)

/-- The digits of `n` in base 36, most significant first, in front of `acc`. -/
def toBase36Aux : Nat → Nat → List Char → List Char
  | 0, _, acc => acc
  | fuel + 1, n, acc =>
    if n < 36 then base36Digit n :: acc
    else toBase36Aux fuel (n / 36) (base36Digit (n % 36) :: acc)

/-- The call `n.toString(36)` on a non-negative integer. -/
def toBase36 (n : Nat) : String :=
  ⟨toBase36Aux (n + 1) n []⟩

/-- The function `generateId`: `now` is the reading of `Date.now()`, `rnd` the string
`Math.random().toString(36).substr(2)`. -/
def generateId (now : Nat) (rnd : String) : String :=
  toBase36 now ++ rnd

/-! ## Local storage management -/

/-- The function `saveToStorage`: `setItemOk` tells whether `localStorage.setItem` succeeds;
when it throws, the store is left as it was and the result is `false`. `write` is the
assignment of the serialised data to the key. -/
def saveToStorage (st : Storage) (write : Storage → Storage) (setItemOk : Bool) :
    Bool × Storage :=
  if setItemOk then (true, write st) else (false, st)

/-- The call `loadFromStorage('smartstudy_users', [])`. -/
def loadUsers (st : Storage) : List User :=
  st.users.getD []

/-- The call `loadFromStorage('smartstudy_notes', {})`. -/
def loadAllNotes (st : Storage) : List (String × List Note) :=
  st.notes.getD []

/-- The call `loadFromStorage('smartstudy_current_user')`, whose default is `null`. -/
def loadCurrentUser (st : Storage) : Option User :=
  st.currentUser

/-- The call `removeFromStorage('smartstudy_current_user')`. -/
def removeCurrentUser (st : Storage) : Storage :=
  { st with currentUser := none }

/-! ## Notes management: loading and saving -/

/-- The function `loadUserNotes`: the result and the state after. The read
`allNotes[id] || []` is the own property or the empty list; this is the read of the script
when `objRead` does not give `inherited`, that is when the id is an own key of the mapping
or is not a name inherited from `Object.prototype`. -/
def loadUserNotes (w : World) : List Note × World :=
  match w.app.currentUser with
  | none => ([], w)
  | some u =>
    let allNotes := loadAllNotes w.store
    let notes := (objGet allNotes u.id).getD []
    (notes, { w with app := { w.app with notes := notes } })

/-- The function `saveUserNotes`. -/
def saveUserNotes (w : World) (setItemOk : Bool) : Bool × World :=
  match w.app.currentUser with
  | none => (false, w)
  | some u =>
    let allNotes := loadAllNotes w.store
    let allNotes1 := objSet allNotes u.id w.app.notes
    let r := saveToStorage w.store (fun st => { st with notes := some allNotes1 }) setItemOk
    (r.1, { w with store := r.2 })

/-! ## View functions that change the state -/

/-- The function `showNotesSection`: sets `AppState.currentView`. -/
def showNotesSection (w : World) : World :=
  { w with app := { w.app with currentView := View.notes } }

/-- The function `showDashboard`: loads the notes of the current user and shows the notes
section. -/
def showDashboard (w : World) : World :=
  showNotesSection (loadUserNotes w).2

/-! ## Authentication -/

/-- The function `registerUser`. `idNow` and `idRnd` are read by `generateId`,
`createdNow` is the `Date.now()` of `createdAt`. -/
def registerUser (w : World) (name email password : String)
    (idNow : Nat) (idRnd : String) (createdNow : Nat) (setItemOk : Bool) : Bool × World :=
  let users := loadUsers w.store
  match users.find? (fun user => user.email == email) with
  | some _ => (false, w)
  | none =>
    let newUser : User :=
      { id := generateId idNow idRnd
        name := name
        email := email
        password := password
        createdAt := createdNow }
    let users1 := users ++ [newUser]
    let r := saveToStorage w.store (fun st => { st with users := some users1 }) setItemOk
    (true, { w with store := r.2 })

/-- The function `loginUser`. -/
def loginUser (w : World) (email password : String) (setItemOk : Bool) : Bool × World :=
  let users := loadUsers w.store
  match users.find? (fun u => u.email == email && u.password == password) with
  | some user =>
    let app1 : AppState := { w.app with currentUser := some user }
    let r := saveToStorage w.store (fun st => { st with currentUser := some user }) setItemOk
    (true, showDashboard { app := app1, store := r.2 })
  | none => (false, w)

/-- The function `logoutUser`. -/
def logoutUser (w : World) : World :=
  { app := { w.app with currentUser := none }, store := removeCurrentUser w.store }

/-- The function `checkAuthStatus`. -/
def checkAuthStatus (w : World) : Bool × World :=
  match loadCurrentUser w.store with
  | some user => (true, showDashboard { w with app := { w.app with currentUser := some user } })
  | none => (false, w)

/-! ## Notes management: the operations -/

/-- The function `addNote`. `idNow` and `idRnd` are read by `generateId`, `createdNow` and
`updatedNow` are the two further readings of `Date.now()`. -/
def addNote (w : World) (title content : String)
    (idNow : Nat) (idRnd : String) (createdNow updatedNow : Nat) (setItemOk : Bool) :
    Note × World :=
  let note : Note :=
    { id := generateId idNow idRnd
      title := jsTrim title
      content := jsTrim content
      createdAt := createdNow
      updatedAt := updatedNow }
  let w1 : World := { w with app := { w.app with notes := note :: w.app.notes } }
  (note, (saveUserNotes w1 setItemOk).2)

/-- The function `updateNote`. -/
def updateNote (w : World) (id title content : String) (updatedNow : Nat)
    (setItemOk : Bool) : Bool × World :=
  match findIndex (fun note => note.id == id) w.app.notes with
  | none => (false, w)
  | some noteIndex =>
    let notes1 := w.app.notes.modify
      (fun old => { old with title := jsTrim title, content := jsTrim content,
                             updatedAt := updatedNow }) noteIndex
    let w1 : World := { w with app := { w.app with notes := notes1 } }
    (true, (saveUserNotes w1 setItemOk).2)

/-- The function `deleteNote`; `confirmed` is the answer of the `confirm` dialog. -/
def deleteNote (w : World) (id : String) (confirmed : Bool) (setItemOk : Bool) :
    Bool × World :=
  match findIndex (fun note => note.id == id) w.app.notes with
  | none => (false, w)
  | some noteIndex =>
    if confirmed then
      let w1 : World := { w with app := { w.app with notes := w.app.notes.eraseIdx noteIndex } }
      (true, (saveUserNotes w1 setItemOk).2)
    else (false, w)

/-- The function `getNoteById`; `none` stands for `undefined`. -/
def getNoteById (w : World) (id : String) : Option Note :=
  w.app.notes.find? (fun note => note.id == id)

/-! ## Quiz management -/

/-- The function `initializeQuiz`. -/
def initializeQuiz (a : AppState) : AppState :=
  { a with quiz := { questions := QUIZ_QUESTIONS, currentQuestion := 0, score := 0,
                     answers := [], isActive := false } }

/-- The function `startQuiz`. -/
def startQuiz (a : AppState) : AppState :=
  let a1 := initializeQuiz a
  { a1 with quiz := { a1.quiz with isActive := true } }

/-- The function `submitQuizAnswer`. When the cursor is past the last question
`currentQ` is `undefined` and reading `currentQ.correct` throws: the result is `none`. -/
def submitQuizAnswer (a : AppState) (selectedOption : Nat) : Option AppState :=
  match a.quiz.questions[a.quiz.currentQuestion]? with
  | none => none
  | some currentQ =>
    let isCorrect := selectedOption == currentQ.correct
    let answers1 := a.quiz.answers ++
      [{ questionId := currentQ.id, selected := selectedOption,
         correct := currentQ.correct, isCorrect := isCorrect }]
    let score1 := if isCorrect then a.quiz.score + 1 else a.quiz.score
    some { a with quiz := { a.quiz with answers := answers1, score := score1 } }

/-- The function `showQuizResults`: the session is no longer active. -/
def showQuizResults (a : AppState) : AppState :=
  { a with quiz := { a.quiz with isActive := false } }

/-- The function `nextQuestion`. -/
def nextQuestion (a : AppState) : AppState :=
  let a1 : AppState := { a with quiz := { a.quiz with currentQuestion := a.quiz.currentQuestion + 1 } }
  if a1.quiz.currentQuestion ≥ a1.quiz.questions.length then showQuizResults a1 else a1


/-! ## Specification predicates -/

/-- The emails of the records of a directory are pairwise distinct. -/
def UniqueEmails (users : List User) : Prop :=
  users.Pairwise (fun a b => a.email ≠ b.email)

/-- The states reached from a state with an empty directory by calls of `registerUser`. -/
inductive RegisterReachable : World → Prop where
  | empty (w : World) (h : loadUsers w.store = []) : RegisterReachable w
  | register (w : World) (h : RegisterReachable w) (name email password : String)
      (idNow : Nat) (idRnd : String) (createdNow : Nat) (setItemOk : Bool) :
      RegisterReachable (registerUser w name email password idNow idRnd createdNow setItemOk).2

/-- A directory with one record, used in examples. -/
def sampleUser : User :=
  { id := "5x", name := "Ann", email := "ann@x.org", password := "pw", createdAt := 7 }

/-- A state with one registered user and nobody logged in. -/
def sampleWorld : World :=
  { app := initialAppState, store := { emptyStorage with users := some [sampleUser] } }


/-- The string `t` is `s` with its leading and trailing whitespace removed: `s` is `t`
between two runs of trimmed characters, and `t` neither starts nor ends with one. -/
def IsTrimOf (t s : String) : Prop :=
  ∃ pre post : List Char,
    s.data = pre ++ t.data ++ post ∧
    (∀ c ∈ pre, isTrimChar c = true) ∧
    (∀ c ∈ post, isTrimChar c = true) ∧
    (∀ c, t.data.head? = some c → isTrimChar c = false) ∧
    (∀ c, t.data.getLast? = some c → isTrimChar c = false)

/-- A logged-in state with two notes, used in examples. -/
def sampleNotes : List Note :=
  [ { id := "n2", title := "Second", content := "two", createdAt := 20, updatedAt := 20 },
    { id := "n1", title := "First", content := "one", createdAt := 10, updatedAt := 10 } ]

/-- A state in which `sampleUser` is logged in and owns `sampleNotes`. -/
def sampleSession : World :=
  { app := { initialAppState with currentUser := some sampleUser, notes := sampleNotes }
    store := { users := some [sampleUser], currentUser := some sampleUser,
               notes := some [("5x", sampleNotes)] } }

/-- The quiz states reached from `startQuiz` by the engine operations `startQuiz`,
`submitQuizAnswer` on an in-range cursor (where it returns) and `nextQuestion`. -/
inductive QuizReachable : AppState → Prop where
  | start (a : AppState) : QuizReachable (startQuiz a)
  | submit (a b : AppState) (h : QuizReachable a) (selectedOption : Nat)
      (hs : submitQuizAnswer a selectedOption = some b) : QuizReachable b
  | next (a : AppState) (h : QuizReachable a) : QuizReachable (nextQuestion a)

/-- The quiz states reached as in `QuizReachable`, with `nextQuestion` too called only on an
in-range cursor. -/
inductive QuizReachableInRange : AppState → Prop where
  | start (a : AppState) : QuizReachableInRange (startQuiz a)
  | submit (a b : AppState) (h : QuizReachableInRange a) (selectedOption : Nat)
      (hs : submitQuizAnswer a selectedOption = some b) : QuizReachableInRange b
  | next (a : AppState) (h : QuizReachableInRange a)
      (hr : a.quiz.currentQuestion < a.quiz.questions.length) :
      QuizReachableInRange (nextQuestion a)

/-- The quiz states reached when the operations are called as the page allows: an answer is
submitted only for a question that has none yet, and `nextQuestion` is called only after
the current question was answered. -/
inductive QuizProtocol : AppState → Prop where
  | start (a : AppState) : QuizProtocol (startQuiz a)
  | submit (a b : AppState) (h : QuizProtocol a) (selectedOption : Nat)
      (hfresh : a.quiz.answers.length = a.quiz.currentQuestion)
      (hs : submitQuizAnswer a selectedOption = some b) : QuizProtocol b
  | next (a : AppState) (h : QuizProtocol a)
      (hr : a.quiz.currentQuestion < a.quiz.questions.length)
      (hanswered : a.quiz.answers.length = a.quiz.currentQuestion + 1) :
      QuizProtocol (nextQuestion a)

/-- The quiz state after `startQuiz` and six calls of `nextQuestion`. -/
def quizAfterSixNext : AppState :=
  nextQuestion (nextQuestion (nextQuestion (nextQuestion (nextQuestion (nextQuestion
    (startQuiz initialAppState))))))

/-- The quiz state after `startQuiz` and the correct answer (option 1) to the first
question. -/
def quizAfterFirstAnswer : AppState :=
  (submitQuizAnswer (startQuiz initialAppState) 1).getD (startQuiz initialAppState)

/-! ## JavaScript numbers in `getScoreMessage`

`getScoreMessage` divides and multiplies IEEE 754 double-precision numbers. Its arguments
are non-negative integers below `2 ^ 53`, which are exact as JavaScript numbers; the
quotient of two such integers and its product by 100 lie in the normal range, so each
operation returns the exact result rounded to a 53-bit significand, ties to even. -/

/-- A non-negative JavaScript number: the finite value `mant * 2 ^ exp`, `Infinity` or
`NaN`. -/
inductive JsNumber where
  | finite (mant : Nat) (exp : Int)
  | infinity
  | nan
deriving DecidableEq, Repr

/-- The number of binary digits of `n`, computed with `fuel` halvings. -/
def bitLengthAux : Nat → Nat → Nat
  | 0, _ => 0
  | fuel + 1, n => if n = 0 then 0 else bitLengthAux fuel (n / 2) + 1

/-- The number of binary digits of `n`: `2 ^ (bitLength n - 1) ≤ n < 2 ^ bitLength n` for
a positive `n`. -/
def bitLength (n : Nat) : Nat :=
  bitLengthAux n n

/-- The integer nearest to `n / d`, a tie going to the even one. -/
def roundQuot (n d : Nat) : Nat :=
  if 2 * (n % d) < d then n / d
  else if d < 2 * (n % d) then n / d + 1
  else if (n / d) % 2 = 0 then n / d else n / d + 1

/-- The double nearest to the positive fraction `a / b`, ties to even: the fraction is
scaled by a power of two that brings it into `[2 ^ 52, 2 ^ 53)` and rounded to an
integer there. -/
def roundScaled (a b : Nat) : JsNumber :=
  if a * 2 ^ (53 + bitLength b) / (b * 2 ^ bitLength a) < 2 ^ 53 then
    JsNumber.finite (roundQuot (a * 2 ^ (53 + bitLength b)) (b * 2 ^ bitLength a))
      ((bitLength a : Int) - (bitLength b : Int) - 53)
  else
    JsNumber.finite (roundQuot (a * 2 ^ (53 + bitLength b)) (2 * (b * 2 ^ bitLength a)))
      ((bitLength a : Int) - (bitLength b : Int) - 52)

/-- The double nearest to the positive rational `n / d`; the fraction is first put in
lowest terms, which does not change its value. -/
def roundRatio (n d : Nat) : JsNumber :=
  roundScaled (n / Nat.gcd n d) (d / Nat.gcd n d)

/-- The JavaScript quotient `n / d` of two non-negative integers. -/
def jsDiv (n d : Nat) : JsNumber :=
  if d = 0 then (if n = 0 then JsNumber.nan else JsNumber.infinity)
  else if n = 0 then JsNumber.finite 0 0
  else roundRatio n d

/-- The JavaScript product `x * k` of a number by a positive integer. -/
def jsMul (x : JsNumber) (k : Nat) : JsNumber :=
  match x with
  | JsNumber.finite mant exp =>
    if mant = 0 then JsNumber.finite 0 0
    else if 0 ≤ exp then roundRatio (mant * k * 2 ^ exp.toNat) 1
    else roundRatio (mant * k) (2 ^ (-exp).toNat)
  | JsNumber.infinity => JsNumber.infinity
  | JsNumber.nan => JsNumber.nan

/-- The JavaScript comparison `x >= c` of a number with a non-negative integer. -/
def jsGe (x : JsNumber) (c : Nat) : Bool :=
  match x with
  | JsNumber.finite mant exp =>
    if 0 ≤ exp then decide (c ≤ mant * 2 ^ exp.toNat)
    else decide (c * 2 ^ (-exp).toNat ≤ mant)
  | JsNumber.infinity => true
  | JsNumber.nan => false

/-! ## Quiz results -/

/-- The function `getScoreMessage`. -/
def getScoreMessage (score total : Nat) : String :=
  let percentage := jsMul (jsDiv score total) 100
  if jsGe percentage 90 then "Excellent! You\x27re a study master! 🌟"
  else if jsGe percentage 80 then "Great job! You know your stuff! 👏"
  else if jsGe percentage 70 then "Good work! Keep studying! 📚"
  else if jsGe percentage 60 then "Not bad! Room for improvement! 💪"
  else "Keep studying and try again! 📖"

/-- The text `showQuizResults` puts in the element `scoreMessage`:
`getScoreMessage(score, total)` with the score and the number of questions of the quiz. -/
def shownScoreMessage (a : AppState) : String :=
  getScoreMessage a.quiz.score a.quiz.questions.length

/-- One question of a quiz run: `submitQuizAnswer(selectedOption)` followed by
`nextQuestion()`. -/
def answerAndAdvance (a : AppState) (selectedOption : Nat) : Option AppState :=
  (submitQuizAnswer a selectedOption).map nextQuestion

/-- A quiz run: `startQuiz()`, then each selection in order answered and advanced. -/
def quizRun (a : AppState) (selections : List Nat) : Option AppState :=
  selections.foldlM answerAndAdvance (startQuiz a)

/-- The rational value of the finite JavaScript number `mant * 2 ^ exp`. -/
def finiteValue (mant : Nat) (exp : Int) : ℚ :=
  (mant : ℚ) * (2 : ℚ) ^ exp

/-- The percentage `100 × score / total` as an exact rational. -/
def exactPercentage (score total : Nat) : ℚ :=
  100 * (score : ℚ) / (total : ℚ)

/-- A user record whose id is the string `__proto__`. -/
def protoUser : User :=
  { id := "__proto__", name := "Pat", email := "pat@x.org", password := "pw", createdAt := 9 }

/-- A state in which `protoUser` is logged in with one note in memory and nothing in the
notes mapping yet. -/
def protoSession : World :=
  { app := { initialAppState with
               currentUser := some protoUser
               notes := [{ id := "n1", title := "First", content := "one",
                           createdAt := 10, updatedAt := 10 }] }
    store := { users := some [protoUser], currentUser := some protoUser, notes := none } }
/-! ## Account directory -/

theorem registerUser_duplicate (w : World) (name email password : String)
    (idNow : Nat) (idRnd : String) (createdNow : Nat) (setItemOk : Bool)
    (h : ∃ u ∈ loadUsers w.store, u.email = email) :
    registerUser w name email password idNow idRnd createdNow setItemOk = (false, w) := by
  obtain ⟨u, hu, he⟩ := h
  have hsome : ((loadUsers w.store).find? (fun user => user.email == email)).isSome := by
    rw [List.find?_isSome]
    exact ⟨u, hu, by simp [he]⟩
  unfold registerUser
  cases hf : (loadUsers w.store).find? (fun user => user.email == email) with
  | none => rw [hf] at hsome; simp at hsome
  | some v => simp [hf]

theorem registerUser_fresh (w : World) (name email password : String)
    (idNow : Nat) (idRnd : String) (createdNow : Nat) (setItemOk : Bool)
    (h : ∀ u ∈ loadUsers w.store, u.email ≠ email) :
    registerUser w name email password idNow idRnd createdNow setItemOk =
      (true, { w with store := (saveToStorage w.store
        (fun st => { st with users := some (loadUsers w.store ++
          [{ id := generateId idNow idRnd, name := name, email := email,
             password := password, createdAt := createdNow }]) }) setItemOk).2 }) := by
  have hf : (loadUsers w.store).find? (fun user => user.email == email) = none := by
    rw [List.find?_eq_none]
    intro x hx
    simpa using h x hx
  unfold registerUser
  simp [hf]

/-- C1 (as amended). A duplicate email makes `registerUser` return `false` and leaves the
whole state, hence the persisted directory, as it was. With a fresh email it returns
`true`; the directory is then the old one with one record of that name, email and
password appended when the storage write succeeds, and is unchanged when the write
fails. -/
theorem registerUser_spec (w : World) (name email password : String)
    (idNow : Nat) (idRnd : String) (createdNow : Nat) (setItemOk : Bool) :
    ((∃ u ∈ loadUsers w.store, u.email = email) →
      registerUser w name email password idNow idRnd createdNow setItemOk = (false, w)) ∧
    ((∀ u ∈ loadUsers w.store, u.email ≠ email) →
      (registerUser w name email password idNow idRnd createdNow setItemOk).1 = true ∧
      (setItemOk = true →
        ∃ u : User, u.name = name ∧ u.email = email ∧ u.password = password ∧
          loadUsers (registerUser w name email password idNow idRnd createdNow setItemOk).2.store
            = loadUsers w.store ++ [u]) ∧
      (setItemOk = false →
        (registerUser w name email password idNow idRnd createdNow setItemOk).2 = w)) := by
  refine ⟨registerUser_duplicate w name email password idNow idRnd createdNow setItemOk, ?_⟩
  intro h
  rw [registerUser_fresh w name email password idNow idRnd createdNow setItemOk h]
  refine ⟨rfl, ?_, ?_⟩
  · intro hok
    subst hok
    exact ⟨{ id := generateId idNow idRnd, name := name, email := email,
             password := password, createdAt := createdNow }, rfl, rfl, rfl,
           by simp [saveToStorage, loadUsers]⟩
  · intro hok
    subst hok
    simp [saveToStorage]

/-- C1, the claim as stated fails: with a fresh email and a storage write that fails,
`registerUser` returns `true` although no record was appended to the directory. -/
theorem registerUser_write_failure_counterexample :
    (∀ u ∈ loadUsers sampleWorld.store, u.email ≠ "bob@x.org") ∧
    (registerUser sampleWorld "Bob" "bob@x.org" "pw2" 5 "y" 8 false).1 = true ∧
    ¬ ∃ u : User,
      loadUsers (registerUser sampleWorld "Bob" "bob@x.org" "pw2" 5 "y" 8 false).2.store
        = loadUsers sampleWorld.store ++ [u] := by
  refine ⟨by decide, by decide, ?_⟩
  rintro ⟨u, hu⟩
  have hlen := congrArg List.length hu
  have h1 : (loadUsers
      (registerUser sampleWorld "Bob" "bob@x.org" "pw2" 5 "y" 8 false).2.store).length = 1 := by
    decide
  have h2 : (loadUsers sampleWorld.store).length = 1 := by decide
  rw [List.length_append, h1, h2] at hlen
  simp at hlen

/-- C1, the amended statement at a concrete directory: a second registration of
`ann@x.org` is refused and a registration of `bob@x.org` appends one record. -/
theorem registerUser_spec_witness :
    registerUser sampleWorld "Eve" "ann@x.org" "pw3" 5 "y" 8 true = (false, sampleWorld) ∧
    (registerUser sampleWorld "Bob" "bob@x.org" "pw2" 5 "y" 8 true).1 = true :=
  ⟨(registerUser_spec sampleWorld "Eve" "ann@x.org" "pw3" 5 "y" 8 true).1
      ⟨sampleUser, by decide, by decide⟩,
   ((registerUser_spec sampleWorld "Bob" "bob@x.org" "pw2" 5 "y" 8 true).2 (by decide)).1⟩


/-- A call of `registerUser` keeps the emails of the directory pairwise distinct. -/
theorem registerUser_preserves_uniqueEmails (w : World) (name email password : String)
    (idNow : Nat) (idRnd : String) (createdNow : Nat) (setItemOk : Bool)
    (h : UniqueEmails (loadUsers w.store)) :
    UniqueEmails
      (loadUsers (registerUser w name email password idNow idRnd createdNow setItemOk).2.store) := by
  by_cases hdup : ∃ u ∈ loadUsers w.store, u.email = email
  · rw [registerUser_duplicate w name email password idNow idRnd createdNow setItemOk hdup]
    exact h
  · have hfresh : ∀ u ∈ loadUsers w.store, u.email ≠ email := by
      intro u hu he
      exact hdup ⟨u, hu, he⟩
    rw [registerUser_fresh w name email password idNow idRnd createdNow setItemOk hfresh]
    cases setItemOk with
    | false => simpa [saveToStorage] using h
    | true =>
      simp only [saveToStorage, if_true, loadUsers, Option.getD_some]
      unfold UniqueEmails
      rw [List.pairwise_append]
      refine ⟨h, List.pairwise_singleton _ _, ?_⟩
      intro a ha b hb
      rw [List.mem_singleton] at hb
      subst hb
      exact hfresh a ha

/-- C2. Email uniqueness is an invariant of the directory: `registerUser`, whether it
succeeds or fails, keeps the emails pairwise distinct, so every state reached from an empty
directory by calls of `registerUser` has no two records with the same email. -/
theorem uniqueEmails_invariant :
    (∀ (w : World) (name email password : String) (idNow : Nat) (idRnd : String)
        (createdNow : Nat) (setItemOk : Bool),
      UniqueEmails (loadUsers w.store) →
      UniqueEmails (loadUsers
        (registerUser w name email password idNow idRnd createdNow setItemOk).2.store)) ∧
    (∀ w : World, RegisterReachable w → UniqueEmails (loadUsers w.store)) := by
  refine ⟨registerUser_preserves_uniqueEmails, ?_⟩
  intro w hw
  induction hw with
  | empty w h => rw [h]; exact List.Pairwise.nil
  | register w _ name email password idNow idRnd createdNow setItemOk ih =>
    exact registerUser_preserves_uniqueEmails w name email password idNow idRnd createdNow
      setItemOk ih

/-- C2 at a concrete run: after registering `ann@x.org`, `bob@x.org` and `ann@x.org`
again from the empty directory, the two records kept have distinct emails. -/
theorem uniqueEmails_invariant_witness :
    UniqueEmails (loadUsers
      (registerUser
        (registerUser
          (registerUser ⟨initialAppState, emptyStorage⟩ "Ann" "ann@x.org" "pw" 5 "x" 7 true).2
          "Bob" "bob@x.org" "pw2" 6 "y" 8 true).2
        "Eve" "ann@x.org" "pw3" 7 "z" 9 true).2.store) :=
  uniqueEmails_invariant.2 _
    (RegisterReachable.register _
      (RegisterReachable.register _
        (RegisterReachable.register _ (RegisterReachable.empty _ (by decide))
          "Ann" "ann@x.org" "pw" 5 "x" 7 true)
        "Bob" "bob@x.org" "pw2" 6 "y" 8 true)
      "Eve" "ann@x.org" "pw3" 7 "z" 9 true)


/-! ## Login -/

theorem loadUserNotes_currentUser (w : World) :
    (loadUserNotes w).2.app.currentUser = w.app.currentUser := by
  unfold loadUserNotes
  cases h : w.app.currentUser <;> simp [h]

theorem loadUserNotes_store (w : World) : (loadUserNotes w).2.store = w.store := by
  unfold loadUserNotes
  cases h : w.app.currentUser <;> simp

theorem showDashboard_currentUser (w : World) :
    (showDashboard w).app.currentUser = w.app.currentUser := by
  simp [showDashboard, showNotesSection, loadUserNotes_currentUser]

theorem showDashboard_store (w : World) : (showDashboard w).store = w.store := by
  simp [showDashboard, showNotesSection, loadUserNotes_store]

theorem loginUser_of_found (w : World) (email password : String) (setItemOk : Bool) (u : User)
    (h : (loadUsers w.store).find? (fun u => u.email == email && u.password == password)
      = some u) :
    loginUser w email password setItemOk =
      (true, showDashboard
        { app := { w.app with currentUser := some u },
          store := (saveToStorage w.store (fun st => { st with currentUser := some u })
            setItemOk).2 }) := by
  unfold loginUser
  simp [h]

theorem loginUser_of_not_found (w : World) (email password : String) (setItemOk : Bool)
    (h : (loadUsers w.store).find? (fun u => u.email == email && u.password == password)
      = none) :
    loginUser w email password setItemOk = (false, w) := by
  unfold loginUser
  simp [h]

/-- C3 (as amended). The result of `loginUser` is `true` exactly when some record has both
that email and that password. `AppState.currentUser` is then the first such record, and so
is the persisted session pointer when the storage write succeeds; when the write fails the
store is unchanged. When no record matches the result is `false` and the whole state,
hence `AppState.currentUser` and the persisted session pointer, is unchanged. -/
theorem loginUser_spec (w : World) (email password : String) (setItemOk : Bool) :
    ((loginUser w email password setItemOk).1 = true ↔
      ∃ u ∈ loadUsers w.store, u.email = email ∧ u.password = password) ∧
    (∀ (pre : List User) (u : User) (post : List User),
      loadUsers w.store = pre ++ u :: post →
      (∀ v ∈ pre, ¬ (v.email = email ∧ v.password = password)) →
      u.email = email ∧ u.password = password →
      (loginUser w email password setItemOk).2.app.currentUser = some u ∧
      (setItemOk = true →
        (loginUser w email password setItemOk).2.store.currentUser = some u) ∧
      (setItemOk = false → (loginUser w email password setItemOk).2.store = w.store)) ∧
    ((∀ u ∈ loadUsers w.store, ¬ (u.email = email ∧ u.password = password)) →
      loginUser w email password setItemOk = (false, w)) := by
  refine ⟨?_, ?_, ?_⟩
  · cases hf : (loadUsers w.store).find? (fun u => u.email == email && u.password == password) with
    | none =>
      rw [loginUser_of_not_found w email password setItemOk hf]
      rw [List.find?_eq_none] at hf
      constructor
      · intro h; simp at h
      · rintro ⟨u, hu, he, hp⟩
        exact absurd (by simp [he, hp]) (hf u hu)
    | some u =>
      rw [loginUser_of_found w email password setItemOk u hf]
      have hp := List.find?_some hf
      have hm := List.mem_of_find?_eq_some hf
      simp only [Bool.and_eq_true, beq_iff_eq] at hp
      exact ⟨fun _ => ⟨u, hm, hp⟩, fun _ => rfl⟩
  · intro pre u post hsplit hpre hu
    have hf : (loadUsers w.store).find? (fun u => u.email == email && u.password == password)
        = some u := by
      rw [List.find?_eq_some]
      refine ⟨by simp [hu.1, hu.2], pre, post, hsplit, ?_⟩
      intro a ha
      have hna := hpre a ha
      by_cases he : a.email = email
      · have hnp : a.password ≠ password := fun hp => hna ⟨he, hp⟩
        simp [he, hnp]
      · simp [he]
    rw [loginUser_of_found w email password setItemOk u hf]
    refine ⟨by rw [showDashboard_currentUser], ?_, ?_⟩
    · intro hok
      subst hok
      rw [showDashboard_store]
      simp [saveToStorage]
    · intro hok
      subst hok
      rw [showDashboard_store]
      simp [saveToStorage]
  · intro h
    apply loginUser_of_not_found
    rw [List.find?_eq_none]
    intro x hx
    have := h x hx
    simpa using this

/-- C3, the claim as stated fails: with the right email and password and a storage write
that fails, `loginUser` returns `true` and sets `AppState.currentUser`, but the persisted
session pointer stays unset. -/
theorem loginUser_write_failure_counterexample :
    sampleUser ∈ loadUsers sampleWorld.store ∧
    (loginUser sampleWorld "ann@x.org" "pw" false).1 = true ∧
    (loginUser sampleWorld "ann@x.org" "pw" false).2.app.currentUser = some sampleUser ∧
    (loginUser sampleWorld "ann@x.org" "pw" false).2.store.currentUser ≠ some sampleUser := by
  decide

/-- C3, the amended statement at a concrete directory: the right password logs in and
persists the session, a wrong password changes nothing. -/
theorem loginUser_spec_witness :
    (loginUser sampleWorld "ann@x.org" "pw" true).2.app.currentUser = some sampleUser ∧
    (loginUser sampleWorld "ann@x.org" "pw" true).2.store.currentUser = some sampleUser ∧
    loginUser sampleWorld "ann@x.org" "wrong" true = (false, sampleWorld) :=
  ⟨((loginUser_spec sampleWorld "ann@x.org" "pw" true).2.1 [] sampleUser [] (by decide)
      (by decide) (by decide)).1,
   ((loginUser_spec sampleWorld "ann@x.org" "pw" true).2.1 [] sampleUser [] (by decide)
      (by decide) (by decide)).2.1 rfl,
   (loginUser_spec sampleWorld "ann@x.org" "wrong" true).2.2 (by decide)⟩

/-! ## Trimming -/

theorem rdropWhile_append_rtakeWhile_eq (p : Char → Bool) (l : List Char) :
    l.rdropWhile p ++ l.rtakeWhile p = l := by
  have h := congrArg List.reverse (List.takeWhile_append_dropWhile p l.reverse)
  rw [List.reverse_append, List.reverse_reverse] at h
  exact h

theorem head?_of_prefix_ne_nil {t d : List Char} (hp : t <+: d) (c : Char)
    (h : t.head? = some c) : d.head? = some c := by
  obtain ⟨r, rfl⟩ := hp
  cases t with
  | nil => simp at h
  | cons x xs => simpa using h

/-- The function `trimChars` removes exactly the leading and the trailing whitespace. -/
theorem trimChars_spec (l : List Char) :
    ∃ pre post : List Char,
      l = pre ++ trimChars l ++ post ∧
      (∀ c ∈ pre, isTrimChar c = true) ∧
      (∀ c ∈ post, isTrimChar c = true) ∧
      (∀ c, (trimChars l).head? = some c → isTrimChar c = false) ∧
      (∀ c, (trimChars l).getLast? = some c → isTrimChar c = false) := by
  refine ⟨l.takeWhile isTrimChar, (l.dropWhile isTrimChar).rtakeWhile isTrimChar, ?_,
    fun c hc => List.mem_takeWhile_imp hc, fun c hc => List.mem_rtakeWhile_imp hc, ?_, ?_⟩
  · unfold trimChars
    rw [List.append_assoc, rdropWhile_append_rtakeWhile_eq, List.takeWhile_append_dropWhile]
  · intro c hc
    have hd : (l.dropWhile isTrimChar).head? = some c :=
      head?_of_prefix_ne_nil (List.rdropWhile_prefix isTrimChar _) c hc
    have hnot := List.head?_dropWhile_not isTrimChar l
    rw [hd] at hnot
    exact hnot
  · intro c hc
    unfold trimChars at hc
    have hne : (l.dropWhile isTrimChar).rdropWhile isTrimChar ≠ [] := by
      intro hnil
      rw [hnil] at hc
      simp at hc
    have hlast := List.rdropWhile_last_not isTrimChar (l.dropWhile isTrimChar) hne
    rw [List.getLast?_eq_getLast _ hne] at hc
    injection hc with hc
    rw [hc] at hlast
    simpa using hlast

theorem jsTrim_isTrimOf (s : String) : IsTrimOf (jsTrim s) s := by
  obtain ⟨pre, post, h1, h2, h3, h4, h5⟩ := trimChars_spec s.data
  exact ⟨pre, post, h1, h2, h3, h4, h5⟩

/-! ## Note repository -/

theorem saveUserNotes_app (w : World) (setItemOk : Bool) :
    (saveUserNotes w setItemOk).2.app = w.app := by
  unfold saveUserNotes
  cases h : w.app.currentUser <;> simp

/-- C4. After `addNote(title, content)` the note list is the returned record followed by
the old list in its old order: the length grows by one and the new record is at position
0. The title and content of the returned record are the arguments with leading and
trailing whitespace removed. -/
theorem addNote_prepends_trimmed (w : World) (title content : String)
    (idNow : Nat) (idRnd : String) (createdNow updatedNow : Nat) (setItemOk : Bool) :
    (addNote w title content idNow idRnd createdNow updatedNow setItemOk).2.app.notes
      = (addNote w title content idNow idRnd createdNow updatedNow setItemOk).1
          :: w.app.notes ∧
    (addNote w title content idNow idRnd createdNow updatedNow setItemOk).2.app.notes.length
      = w.app.notes.length + 1 ∧
    (addNote w title content idNow idRnd createdNow updatedNow setItemOk).2.app.notes[0]?
      = some (addNote w title content idNow idRnd createdNow updatedNow setItemOk).1 ∧
    IsTrimOf (addNote w title content idNow idRnd createdNow updatedNow setItemOk).1.title
      title ∧
    IsTrimOf (addNote w title content idNow idRnd createdNow updatedNow setItemOk).1.content
      content := by
  have hnotes :
      (addNote w title content idNow idRnd createdNow updatedNow setItemOk).2.app.notes
        = (addNote w title content idNow idRnd createdNow updatedNow setItemOk).1
            :: w.app.notes := by
    simp only [addNote]
    rw [saveUserNotes_app]
  refine ⟨hnotes, ?_, ?_, ?_, ?_⟩
  · rw [hnotes, List.length_cons]
  · rw [hnotes]
    exact List.getElem?_cons_zero
  · exact jsTrim_isTrimOf title
  · exact jsTrim_isTrimOf content

/-- C5, the code at the failing input. When the clock ticks between the two readings of
`Date.now()` in `addNote` (here 100 for `createdAt` and 101 for `updatedAt`), the new
record, which is also the first note of the list, has `createdAt ≠ updatedAt`. -/
theorem addNote_clock_tick_counterexample :
    (addNote sampleSession "T" "C" 100 "r" 100 101 true).1.createdAt = 100 ∧
    (addNote sampleSession "T" "C" 100 "r" 100 101 true).1.updatedAt = 101 ∧
    (addNote sampleSession "T" "C" 100 "r" 100 101 true).1.createdAt
      ≠ (addNote sampleSession "T" "C" 100 "r" 100 101 true).1.updatedAt ∧
    (addNote sampleSession "T" "C" 100 "r" 100 101 true).2.app.notes.head?
      = some ⟨"2sr", "T", "C", 100, 101⟩ := by
  decide

/-! ## Searching a list -/

theorem findIndex_eq_none {α : Type} (p : α → Bool) (l : List α) :
    findIndex p l = none ↔ ∀ x ∈ l, p x = false := by
  induction l with
  | nil => simp [findIndex]
  | cons x xs ih =>
    unfold findIndex
    by_cases hx : p x = true
    · simp [hx]
    · simp only [hx, Bool.false_eq_true, if_false, Option.map_eq_none', ih]
      simp [hx]

theorem findIndex_eq_some {α : Type} (p : α → Bool) (l : List α) (i : Nat)
    (h : findIndex p l = some i) :
    ∃ x, l[i]? = some x ∧ p x = true ∧ ∀ j y, j < i → l[j]? = some y → p y = false := by
  induction l generalizing i with
  | nil => simp [findIndex] at h
  | cons x xs ih =>
    unfold findIndex at h
    by_cases hx : p x = true
    · simp only [hx, if_true, Option.some.injEq] at h
      subst h
      exact ⟨x, by simp, hx, fun j y hj _ => absurd hj (Nat.not_lt_zero j)⟩
    · simp only [hx, Bool.false_eq_true, if_false, Option.map_eq_some'] at h
      obtain ⟨k, hk, rfl⟩ := h
      obtain ⟨y, hy, hpy, hbefore⟩ := ih k hk
      refine ⟨y, by simpa using hy, hpy, ?_⟩
      intro j z hj hz
      cases j with
      | zero =>
        simp only [List.getElem?_cons_zero, Option.some.injEq] at hz
        subst hz
        simpa using hx
      | succ j =>
        simp only [List.getElem?_cons_succ] at hz
        exact hbefore j z (Nat.lt_of_succ_lt_succ hj) hz

theorem findIndex_isSome_of_mem {α : Type} (p : α → Bool) (l : List α)
    (h : ∃ x ∈ l, p x = true) : ∃ i, findIndex p l = some i := by
  cases hf : findIndex p l with
  | some i => exact ⟨i, rfl⟩
  | none =>
    rw [findIndex_eq_none] at hf
    obtain ⟨x, hx, hp⟩ := h
    rw [hf x hx] at hp
    exact absurd hp (by decide)

/-- C6. When the note list contains a note with the given id, `updateNote(id, title,
content)` returns `true` and the list keeps its length; at the position of the first note
with that id the record keeps its id and `createdAt` and gets the trimmed title and
content (and the new `updatedAt`); the record at every other position is unchanged. -/
theorem updateNote_edits_in_place (w : World) (id title content : String)
    (updatedNow : Nat) (setItemOk : Bool) (h : ∃ n ∈ w.app.notes, n.id = id) :
    (updateNote w id title content updatedNow setItemOk).1 = true ∧
    (updateNote w id title content updatedNow setItemOk).2.app.notes.length
      = w.app.notes.length ∧
    ∃ (i : Nat) (old new : Note),
      w.app.notes[i]? = some old ∧ old.id = id ∧
      (∀ j n, j < i → w.app.notes[j]? = some n → n.id ≠ id) ∧
      (updateNote w id title content updatedNow setItemOk).2.app.notes[i]? = some new ∧
      new.id = old.id ∧ new.createdAt = old.createdAt ∧
      IsTrimOf new.title title ∧ IsTrimOf new.content content ∧
      new.updatedAt = updatedNow ∧
      (∀ j, j ≠ i →
        (updateNote w id title content updatedNow setItemOk).2.app.notes[j]?
          = w.app.notes[j]?) := by
  obtain ⟨i, hi⟩ := findIndex_isSome_of_mem (fun note : Note => note.id == id) w.app.notes
    (by obtain ⟨n, hn, hid⟩ := h; exact ⟨n, hn, by simp [hid]⟩)
  obtain ⟨old, hold, hpold, hbefore⟩ := findIndex_eq_some _ _ i hi
  have hnotes : (updateNote w id title content updatedNow setItemOk).2.app.notes
      = w.app.notes.modify
          (fun old =>
            { old with title := jsTrim title, content := jsTrim content,
                       updatedAt := updatedNow }) i := by
    unfold updateNote
    simp only [hi]
    rw [saveUserNotes_app]
  refine ⟨?_, ?_, i, old,
    { old with title := jsTrim title, content := jsTrim content, updatedAt := updatedNow },
    hold, by simpa using hpold, ?_, ?_, rfl, rfl,
    jsTrim_isTrimOf title, jsTrim_isTrimOf content, rfl, ?_⟩
  · unfold updateNote
    simp only [hi]
  · rw [hnotes, List.length_modify]
  · intro j n hj hn hid
    have := hbefore j n hj hn
    simp [hid] at this
  · rw [hnotes, List.getElem?_modify_eq, hold]
    rfl
  · intro j hj
    rw [hnotes, List.getElem?_modify_ne _ _ (Ne.symm hj)]

/-- C6 at a concrete list: editing the note `n1`, which is second in `sampleNotes`. -/
theorem updateNote_edits_in_place_witness :
    (updateNote sampleSession "n1" " New " " text " 30 true).1 = true ∧
    (updateNote sampleSession "n1" " New " " text " 30 true).2.app.notes.length
      = sampleSession.app.notes.length :=
  ⟨(updateNote_edits_in_place sampleSession "n1" " New " " text " 30 true
      ⟨⟨"n1", "First", "one", 10, 10⟩, by decide, by decide⟩).1,
   (updateNote_edits_in_place sampleSession "n1" " New " " text " 30 true
      ⟨⟨"n1", "First", "one", 10, 10⟩, by decide, by decide⟩).2.1⟩

theorem eraseIdx_findIndex_eq_filter (id : String) (l : List Note) (i : Nat)
    (hdistinct : l.Pairwise (fun a b => a.id ≠ b.id))
    (hi : findIndex (fun note : Note => note.id == id) l = some i) :
    l.eraseIdx i = l.filter (fun note => note.id != id) := by
  induction l generalizing i with
  | nil => simp [findIndex] at hi
  | cons x xs ih =>
    rw [List.pairwise_cons] at hdistinct
    unfold findIndex at hi
    by_cases hx : x.id = id
    · simp only [hx, beq_self_eq_true, if_true, Option.some.injEq] at hi
      subst hi
      have hkeep : ∀ y ∈ xs, (y.id != id) = true := by
        intro y hy
        have hne := hdistinct.1 y hy
        rw [hx] at hne
        simpa using Ne.symm hne
      rw [List.eraseIdx_cons_zero, List.filter_cons_of_neg (by simp [hx]),
        List.filter_eq_self.mpr hkeep]
    · have hb : (x.id == id) = false := by simpa using hx
      simp only [hb, Bool.false_eq_true, if_false, Option.map_eq_some'] at hi
      obtain ⟨k, hk, rfl⟩ := hi
      rw [List.eraseIdx_cons_succ, List.filter_cons_of_pos (by simpa using hx),
        ih k hdistinct.2 hk]

/-- C7. When the ids of the note list are pairwise distinct and some note has the given
id, a confirmed `deleteNote(id)` returns `true`, the note count decreases by exactly one,
the list afterwards is the old list without the notes of that id (every other note is
kept, in its old relative order), and `getNoteById(id)` then finds nothing. -/
theorem deleteNote_removes_exactly (w : World) (id : String) (setItemOk : Bool)
    (hdistinct : w.app.notes.Pairwise (fun a b => a.id ≠ b.id))
    (hmem : ∃ n ∈ w.app.notes, n.id = id) :
    (deleteNote w id true setItemOk).1 = true ∧
    (deleteNote w id true setItemOk).2.app.notes.length + 1 = w.app.notes.length ∧
    (deleteNote w id true setItemOk).2.app.notes
      = w.app.notes.filter (fun note => note.id != id) ∧
    getNoteById (deleteNote w id true setItemOk).2 id = none := by
  obtain ⟨i, hi⟩ := findIndex_isSome_of_mem (fun note : Note => note.id == id) w.app.notes
    (by obtain ⟨n, hn, hid⟩ := hmem; exact ⟨n, hn, by simp [hid]⟩)
  obtain ⟨x, hx, _, _⟩ := findIndex_eq_some _ _ i hi
  have hlt : i < w.app.notes.length := by
    rcases Nat.lt_or_ge i w.app.notes.length with hlt | hge
    · exact hlt
    · rw [List.getElem?_eq_none hge] at hx
      exact absurd hx (by simp)
  have hnotes : (deleteNote w id true setItemOk).2.app.notes = w.app.notes.eraseIdx i := by
    unfold deleteNote
    simp only [hi, if_true]
    rw [saveUserNotes_app]
  have hfilter := eraseIdx_findIndex_eq_filter id w.app.notes i hdistinct hi
  refine ⟨?_, ?_, ?_, ?_⟩
  · unfold deleteNote
    simp only [hi, if_true]
  · rw [hnotes, List.length_eraseIdx_of_lt hlt]
    omega
  · rw [hnotes, hfilter]
  · unfold getNoteById
    rw [hnotes, hfilter, List.find?_eq_none]
    intro y hy
    rw [List.mem_filter] at hy
    simpa using hy.2

/-- C7 at a concrete list: deleting `n2` from `sampleNotes` leaves exactly `n1`. -/
theorem deleteNote_removes_exactly_witness :
    (deleteNote sampleSession "n2" true true).2.app.notes.length + 1
      = sampleSession.app.notes.length ∧
    getNoteById (deleteNote sampleSession "n2" true true).2 "n2" = none :=
  ⟨(deleteNote_removes_exactly sampleSession "n2" true (by decide)
      ⟨⟨"n2", "Second", "two", 20, 20⟩, by decide, by decide⟩).2.1,
   (deleteNote_removes_exactly sampleSession "n2" true (by decide)
      ⟨⟨"n2", "Second", "two", 20, 20⟩, by decide, by decide⟩).2.2.2⟩

/-! ## Generated ids -/

theorem base36Digit_ne_underscore : ∀ d, d < 36 → base36Digit d ≠ '_' := by
  decide

theorem toBase36Aux_head (fuel n : Nat) (acc : List Char) (hacc : acc = [] → 0 < fuel)
    (hhead : ∀ c, acc.head? = some c → ∃ d, d < 36 ∧ c = base36Digit d) :
    ∃ d, d < 36 ∧ (toBase36Aux fuel n acc).head? = some (base36Digit d) := by
  induction fuel generalizing n acc with
  | zero =>
    cases acc with
    | nil => exact absurd (hacc rfl) (Nat.lt_irrefl 0)
    | cons c rest =>
      obtain ⟨d, hd, hc⟩ := hhead c rfl
      exact ⟨d, hd, by simp [toBase36Aux, hc]⟩
  | succ fuel ih =>
    by_cases hn : n < 36
    · exact ⟨n, hn, by simp [toBase36Aux, hn]⟩
    · have hstep : toBase36Aux (fuel + 1) n acc
          = toBase36Aux fuel (n / 36) (base36Digit (n % 36) :: acc) := by
        simp [toBase36Aux, hn]
      rw [hstep]
      apply ih
      · intro h
        exact absurd h (List.cons_ne_nil _ _)
      · intro c hc
        simp only [List.head?_cons, Option.some.injEq] at hc
        exact ⟨n % 36, Nat.mod_lt n (by decide), hc.symm⟩

/-- No id made by `generateId` is the string `__proto__`: an id starts with a base-36
digit of the clock reading. -/
theorem generateId_ne_proto (now : Nat) (rnd : String) : generateId now rnd ≠ "__proto__" := by
  intro h
  obtain ⟨d, hd, hhead⟩ := toBase36Aux_head (now + 1) now [] (fun _ => Nat.succ_pos now)
    (fun c hc => by simp at hc)
  have hdata : (generateId now rnd).data.head? = some (base36Digit d) := by
    unfold generateId toBase36
    rw [String.data_append]
    cases hl : toBase36Aux (now + 1) now [] with
    | nil => rw [hl] at hhead; simp at hhead
    | cons c rest =>
      rw [hl] at hhead
      simpa using hhead
  rw [h] at hdata
  have hproto : ("__proto__" : String).data.head? = some '_' := by decide
  rw [hproto] at hdata
  injection hdata with hc
  exact base36Digit_ne_underscore d hd hc.symm

/-! ## Persistence of the notes -/

theorem objGet_objSet_self {β : Type} (m : List (String × β)) (key : String) (value : β)
    (hkey : key ≠ "__proto__") : objGet (objSet m key value) key = some value := by
  induction m with
  | nil => simp [objSet, objGet, hkey]
  | cons e rest ih =>
    obtain ⟨k, v⟩ := e
    by_cases hk : k = key
    · simp [objSet, objGet, hk]
    · simp [objSet, objGet, hk, ih]

theorem objGet_objSet_ne {β : Type} (m : List (String × β)) (key other : String) (value : β)
    (h : other ≠ key) : objGet (objSet m key value) other = objGet m other := by
  induction m with
  | nil =>
    by_cases hp : key = "__proto__"
    · simp [objSet, objGet, hp]
    · simp [objSet, objGet, hp, Ne.symm h]
  | cons e rest ih =>
    obtain ⟨k, v⟩ := e
    by_cases hk : k = key
    · subst hk
      simp [objSet, objGet, Ne.symm h]
    · by_cases ho : k = other
      · subst ho
        simp [objSet, objGet, h]
      · simp [objSet, objGet, hk, ho, ih]

theorem objRead_of_objGet {β : Type} (m : List (String × β)) (key : String) (value : β)
    (h : objGet m key = some value) : objRead m key = JsRead.own value := by
  simp [objRead, h]

/-- C8 (as amended). For an active user `u` whose id is not the string `__proto__`, a
successful `saveUserNotes` leaves in the store the old mapping with the entry of `u.id`
replaced by the in-memory note list: the entry of `u.id` is that list (an own property,
so the read `allNotes[u.id]` gives it), the entry of every other key is unchanged, the
other keys of the store and the in-memory state are unchanged; and a `loadUserNotes` that
follows returns, and puts in memory, exactly the list that was saved. Every id made by
`generateId` satisfies the condition on the id (`generateId_ne_proto`). -/
theorem saveUserNotes_roundtrip (w : World) (u : User) (setItemOk : Bool)
    (hu : w.app.currentUser = some u) (hid : u.id ≠ "__proto__")
    (hok : (saveUserNotes w setItemOk).1 = true) :
    objGet (loadAllNotes (saveUserNotes w setItemOk).2.store) u.id = some w.app.notes ∧
    objRead (loadAllNotes (saveUserNotes w setItemOk).2.store) u.id
      = JsRead.own w.app.notes ∧
    (∀ other : String, other ≠ u.id →
      objGet (loadAllNotes (saveUserNotes w setItemOk).2.store) other
        = objGet (loadAllNotes w.store) other) ∧
    (saveUserNotes w setItemOk).2.store.users = w.store.users ∧
    (saveUserNotes w setItemOk).2.store.currentUser = w.store.currentUser ∧
    (saveUserNotes w setItemOk).2.app = w.app ∧
    (loadUserNotes (saveUserNotes w setItemOk).2).1 = w.app.notes ∧
    (loadUserNotes (saveUserNotes w setItemOk).2).2.app.notes = w.app.notes := by
  have hset : setItemOk = true := by
    cases setItemOk with
    | true => rfl
    | false => simp [saveUserNotes, hu, saveToStorage] at hok
  subst hset
  have hstore : (saveUserNotes w true).2.store
      = { w.store with notes := some (objSet (loadAllNotes w.store) u.id w.app.notes) } := by
    simp [saveUserNotes, hu, saveToStorage]
  have happ : (saveUserNotes w true).2.app = w.app := saveUserNotes_app w true
  have hall : loadAllNotes (saveUserNotes w true).2.store
      = objSet (loadAllNotes w.store) u.id w.app.notes := by
    rw [hstore]
    rfl
  have hself : objGet (loadAllNotes (saveUserNotes w true).2.store) u.id
      = some w.app.notes := by
    rw [hall, objGet_objSet_self _ _ _ hid]
  have hload : (loadUserNotes (saveUserNotes w true).2).1 = w.app.notes ∧
      (loadUserNotes (saveUserNotes w true).2).2.app.notes = w.app.notes := by
    unfold loadUserNotes
    rw [happ, hu]
    simp only [hself, Option.getD_some, and_self]
  refine ⟨hself, objRead_of_objGet _ _ _ hself, ?_, ?_, ?_, happ, hload.1, hload.2⟩
  · intro other hne
    rw [hall, objGet_objSet_ne _ _ _ _ hne]
  · rw [hstore]
  · rw [hstore]

/-- C8, the claim as stated fails for a user whose id is `__proto__`: the save succeeds,
but the assignment `allNotes['__proto__'] = AppState.notes` adds no own property, so the
persisted mapping is the empty object and has no entry holding the saved list. -/
theorem saveUserNotes_proto_counterexample :
    protoSession.app.currentUser = some protoUser ∧
    protoSession.app.notes ≠ [] ∧
    (saveUserNotes protoSession true).1 = true ∧
    (saveUserNotes protoSession true).2.store.notes = some [] ∧
    objGet (loadAllNotes (saveUserNotes protoSession true).2.store) protoUser.id
      ≠ some protoSession.app.notes ∧
    objRead (loadAllNotes (saveUserNotes protoSession true).2.store) protoUser.id
      = JsRead.inherited := by
  decide

/-- C8 at a concrete store: `sampleUser` adds a note in memory and saves; reloading gives
back the same three notes. -/
theorem saveUserNotes_roundtrip_witness :
    (loadUserNotes (saveUserNotes
      { sampleSession with app := { sampleSession.app with notes :=
          ⟨"n3", "Third", "three", 30, 30⟩ :: sampleNotes } } true).2).1
      = ⟨"n3", "Third", "three", 30, 30⟩ :: sampleNotes :=
  (saveUserNotes_roundtrip
    { sampleSession with app := { sampleSession.app with notes :=
        ⟨"n3", "Third", "three", 30, 30⟩ :: sampleNotes } } sampleUser true
    (by decide) (by decide) (by decide)).2.2.2.2.2.2.1

/-! ## Note operations without a session -/

theorem saveUserNotes_no_session (w : World) (setItemOk : Bool)
    (h : w.app.currentUser = none) : saveUserNotes w setItemOk = (false, w) := by
  simp [saveUserNotes, h]

/-- Without an active session no note operation changes the store. -/
theorem note_operations_no_session_store (w : World) (h : w.app.currentUser = none) :
    (∀ title content idNow idRnd createdNow updatedNow setItemOk,
      (addNote w title content idNow idRnd createdNow updatedNow setItemOk).2.store
        = w.store) ∧
    (∀ id title content updatedNow setItemOk,
      (updateNote w id title content updatedNow setItemOk).2.store = w.store) ∧
    (∀ id confirmed setItemOk, (deleteNote w id confirmed setItemOk).2.store = w.store) := by
  refine ⟨?_, ?_, ?_⟩
  · intro title content idNow idRnd createdNow updatedNow setItemOk
    simp only [addNote]
    rw [saveUserNotes_no_session _ _ (by exact h)]
  · intro id title content updatedNow setItemOk
    unfold updateNote
    cases hf : findIndex (fun note : Note => note.id == id) w.app.notes with
    | none => rfl
    | some i =>
      simp only []
      rw [saveUserNotes_no_session _ _ (by exact h)]
  · intro id confirmed setItemOk
    unfold deleteNote
    cases hf : findIndex (fun note : Note => note.id == id) w.app.notes with
    | none => rfl
    | some i =>
      cases confirmed with
      | false => rfl
      | true =>
        simp only [if_true]
        rw [saveUserNotes_no_session _ _ (by exact h)]

/-- C9, the code at the failing inputs. With `AppState.currentUser` null, `addNote` still
puts the new note in `AppState.notes`; after a logout, which keeps `AppState.notes`,
`updateNote` still rewrites a note and a confirmed `deleteNote` still removes one. In all
three cases the store is unchanged. -/
theorem note_operations_no_session_change_memory :
    sampleWorld.app.currentUser = none ∧
    (addNote sampleWorld "T" "C" 100 "r" 100 100 true).2.app.notes
      = [⟨"2sr", "T", "C", 100, 100⟩] ∧
    sampleWorld.app.notes = [] ∧
    (addNote sampleWorld "T" "C" 100 "r" 100 100 true).2.store = sampleWorld.store ∧
    (logoutUser sampleSession).app.currentUser = none ∧
    (logoutUser sampleSession).app.notes = sampleNotes ∧
    (updateNote (logoutUser sampleSession) "n1" "New" "text" 30 true).2.app.notes
      ≠ sampleNotes ∧
    (updateNote (logoutUser sampleSession) "n1" "New" "text" 30 true).2.store
      = (logoutUser sampleSession).store ∧
    (deleteNote (logoutUser sampleSession) "n1" true true).2.app.notes ≠ sampleNotes ∧
    (deleteNote (logoutUser sampleSession) "n1" true true).2.store
      = (logoutUser sampleSession).store := by
  decide

/-! ## Quiz engine -/

theorem startQuiz_quiz (a : AppState) :
    (startQuiz a).quiz = { questions := QUIZ_QUESTIONS, currentQuestion := 0, score := 0,
                           answers := [], isActive := true } := rfl

theorem submitQuizAnswer_some (a b : AppState) (selectedOption : Nat)
    (hs : submitQuizAnswer a selectedOption = some b) :
    b.quiz.questions = a.quiz.questions ∧
    b.quiz.currentQuestion = a.quiz.currentQuestion ∧
    b.quiz.answers.length = a.quiz.answers.length + 1 ∧
    a.quiz.score ≤ b.quiz.score ∧ b.quiz.score ≤ a.quiz.score + 1 ∧
    a.quiz.currentQuestion < a.quiz.questions.length := by
  unfold submitQuizAnswer at hs
  cases hq : a.quiz.questions[a.quiz.currentQuestion]? with
  | none => simp [hq] at hs
  | some currentQ =>
    simp only [hq, Option.some.injEq] at hs
    subst hs
    have hlt : a.quiz.currentQuestion < a.quiz.questions.length := by
      rcases Nat.lt_or_ge a.quiz.currentQuestion a.quiz.questions.length with hlt | hge
      · exact hlt
      · rw [List.getElem?_eq_none hge] at hq
        exact absurd hq (by simp)
    refine ⟨rfl, rfl, by simp, ?_, ?_, hlt⟩
    · by_cases hc : (selectedOption == currentQ.correct) = true <;> simp [hc]
    · by_cases hc : (selectedOption == currentQ.correct) = true <;> simp [hc]

theorem nextQuestion_quiz (a : AppState) :
    (nextQuestion a).quiz.questions = a.quiz.questions ∧
    (nextQuestion a).quiz.currentQuestion = a.quiz.currentQuestion + 1 ∧
    (nextQuestion a).quiz.score = a.quiz.score ∧
    (nextQuestion a).quiz.answers = a.quiz.answers := by
  unfold nextQuestion showQuizResults
  by_cases h : a.quiz.currentQuestion + 1 ≥ a.quiz.questions.length <;> simp [h]

/-- C10 (as amended). In every quiz state reached from `startQuiz` by `startQuiz`,
`submitQuizAnswer` and `nextQuestion`, each on an in-range cursor, `currentQuestion` is at
most `questions.length` and `score` is at most the number of recorded answers. When
moreover every question is answered at most once and `nextQuestion` follows an answer,
the number of recorded answers is `currentQuestion` or `currentQuestion + 1`, so `score` is
at most `currentQuestion + 1`, and at most `currentQuestion` while the current question is
unanswered. -/
theorem quiz_invariant :
    (∀ a : AppState, QuizReachableInRange a →
      a.quiz.currentQuestion ≤ a.quiz.questions.length ∧
      a.quiz.score ≤ a.quiz.answers.length) ∧
    (∀ a : AppState, QuizProtocol a →
      a.quiz.currentQuestion ≤ a.quiz.questions.length ∧
      a.quiz.score ≤ a.quiz.answers.length ∧
      (a.quiz.answers.length = a.quiz.currentQuestion ∨
        a.quiz.answers.length = a.quiz.currentQuestion + 1) ∧
      a.quiz.score ≤ a.quiz.currentQuestion + 1 ∧
      (a.quiz.answers.length = a.quiz.currentQuestion →
        a.quiz.score ≤ a.quiz.currentQuestion)) := by
  constructor
  · intro a ha
    induction ha with
    | start a => rw [startQuiz_quiz]; decide
    | submit a b _ selectedOption hs ih =>
      obtain ⟨hq, hc, hl, _, hs1, _⟩ := submitQuizAnswer_some a b selectedOption hs
      rw [hq, hc, hl]
      exact ⟨ih.1, by omega⟩
    | next a _ hr ih =>
      obtain ⟨hq, hc, hs, hans⟩ := nextQuestion_quiz a
      rw [hq, hc, hs, hans]
      exact ⟨hr, ih.2⟩
  · intro a ha
    have key : a.quiz.currentQuestion ≤ a.quiz.questions.length ∧
        a.quiz.score ≤ a.quiz.answers.length ∧
        (a.quiz.answers.length = a.quiz.currentQuestion ∨
          a.quiz.answers.length = a.quiz.currentQuestion + 1) := by
      induction ha with
      | start a => rw [startQuiz_quiz]; decide
      | submit a b _ selectedOption hfresh hs ih =>
        obtain ⟨hq, hc, hl, _, hs1, _⟩ := submitQuizAnswer_some a b selectedOption hs
        rw [hq, hc, hl]
        exact ⟨ih.1, by omega, by omega⟩
      | next a _ hr hanswered ih =>
        obtain ⟨hq, hc, hs, hans⟩ := nextQuestion_quiz a
        rw [hq, hc, hs, hans]
        exact ⟨hr, ih.2.1, by omega⟩
    refine ⟨key.1, key.2.1, key.2.2, ?_, ?_⟩
    · rcases key.2.2 with h | h <;> omega
    · intro h
      omega

/-- C10, the claim as stated fails twice. After `startQuiz` and one correct answer the
score is 1 while `currentQuestion` is still 0; after `startQuiz` and six calls of
`nextQuestion` the cursor is 6, past the 5 questions. Both states are reached by the
engine operations. -/
theorem quiz_invariant_counterexample :
    (submitQuizAnswer (startQuiz initialAppState) 1 = some quizAfterFirstAnswer ∧
      QuizReachable quizAfterFirstAnswer ∧
      quizAfterFirstAnswer.quiz.score = 1 ∧ quizAfterFirstAnswer.quiz.currentQuestion = 0) ∧
    (QuizReachable quizAfterSixNext ∧ quizAfterSixNext.quiz.currentQuestion = 6 ∧
      quizAfterSixNext.quiz.questions.length = 5) := by
  refine ⟨⟨by decide, ?_, by decide, by decide⟩, ?_, by decide, by decide⟩
  · exact QuizReachable.submit _ _ (QuizReachable.start initialAppState) 1 (by decide)
  · exact QuizReachable.next _ (QuizReachable.next _ (QuizReachable.next _
      (QuizReachable.next _ (QuizReachable.next _ (QuizReachable.next _
        (QuizReachable.start _))))))

/-- C10 at a concrete run: after `startQuiz`, a correct answer to the first question and
`nextQuestion`, the cursor is within the questions and the score is at most the cursor. -/
theorem quiz_invariant_witness :
    (nextQuestion quizAfterFirstAnswer).quiz.currentQuestion
      ≤ (nextQuestion quizAfterFirstAnswer).quiz.questions.length ∧
    (nextQuestion quizAfterFirstAnswer).quiz.score
      ≤ (nextQuestion quizAfterFirstAnswer).quiz.currentQuestion :=
  have hn : QuizProtocol (nextQuestion quizAfterFirstAnswer) :=
    QuizProtocol.next _
      (QuizProtocol.submit _ _ (QuizProtocol.start initialAppState) 1 (by decide) (by decide))
      (by decide) (by decide)
  ⟨(quiz_invariant.2 _ hn).1, (quiz_invariant.2 _ hn).2.2.2.2 (by decide)⟩

/-! ## A full quiz run -/

theorem nextQuestion_isActive (a : AppState) :
    (nextQuestion a).quiz.isActive
      = (decide (a.quiz.currentQuestion + 1 < a.quiz.questions.length) && a.quiz.isActive) := by
  unfold nextQuestion showQuizResults
  by_cases h : a.quiz.currentQuestion + 1 ≥ a.quiz.questions.length
  · have hlt : ¬ a.quiz.currentQuestion + 1 < a.quiz.questions.length := by omega
    simp [h, hlt]
  · have hlt : a.quiz.currentQuestion + 1 < a.quiz.questions.length := by omega
    simp [h, hlt]

theorem answerAndAdvance_some (a : AppState) (selectedOption : Nat) (q : Question)
    (hq : a.quiz.questions[a.quiz.currentQuestion]? = some q) :
    ∃ b : AppState,
      answerAndAdvance a selectedOption = some b ∧
      b.quiz.questions = a.quiz.questions ∧
      b.quiz.currentQuestion = a.quiz.currentQuestion + 1 ∧
      b.quiz.score = a.quiz.score + (if selectedOption = q.correct then 1 else 0) ∧
      b.quiz.answers.length = a.quiz.answers.length + 1 ∧
      b.quiz.isActive
        = (decide (a.quiz.currentQuestion + 1 < a.quiz.questions.length) &&
            a.quiz.isActive) := by
  have hs : submitQuizAnswer a selectedOption = some
      { a with quiz := { a.quiz with
          answers := a.quiz.answers ++
            [{ questionId := q.id, selected := selectedOption, correct := q.correct,
               isCorrect := selectedOption == q.correct }]
          score := if (selectedOption == q.correct) = true then a.quiz.score + 1
                   else a.quiz.score } } := by
    unfold submitQuizAnswer
    simp only [hq]
  refine ⟨_, by rw [answerAndAdvance, hs]; rfl, ?_, ?_, ?_, ?_, ?_⟩
  · rw [(nextQuestion_quiz _).1]
  · rw [(nextQuestion_quiz _).2.1]
  · rw [(nextQuestion_quiz _).2.2.1]
    by_cases hc : selectedOption = q.correct <;> simp [hc]
  · rw [(nextQuestion_quiz _).2.2.2]
    simp
  · rw [nextQuestion_isActive]

theorem answerAndAdvance_bank (a : AppState) (selectedOption i : Nat)
    (hqs : a.quiz.questions = QUIZ_QUESTIONS) (hc : a.quiz.currentQuestion = i) (hi : i < 5) :
    ∃ b : AppState,
      answerAndAdvance a selectedOption = some b ∧
      b.quiz.questions = QUIZ_QUESTIONS ∧
      b.quiz.currentQuestion = i + 1 ∧
      b.quiz.score = a.quiz.score +
        (if selectedOption = (QUIZ_QUESTIONS.map (fun q => q.correct)).getD i 0 then 1
         else 0) ∧
      b.quiz.answers.length = a.quiz.answers.length + 1 ∧
      b.quiz.isActive = (decide (i + 1 < 5) && a.quiz.isActive) := by
  have hlen : QUIZ_QUESTIONS.length = 5 := rfl
  have hlt : i < QUIZ_QUESTIONS.length := by omega
  have hq : a.quiz.questions[a.quiz.currentQuestion]? = some (QUIZ_QUESTIONS.get ⟨i, hlt⟩) := by
    rw [hqs, hc]
    exact List.getElem?_eq_getElem hlt
  obtain ⟨b, hb, h1, h2, h3, h4, h5⟩ := answerAndAdvance_some a selectedOption _ hq
  have hcorrect : (QUIZ_QUESTIONS.get ⟨i, hlt⟩).correct
      = (QUIZ_QUESTIONS.map (fun q => q.correct)).getD i 0 := by
    have h5cases : i = 0 ∨ i = 1 ∨ i = 2 ∨ i = 3 ∨ i = 4 := by omega
    rcases h5cases with h | h | h | h | h <;> subst h <;> rfl
  refine ⟨b, hb, by rw [h1, hqs], by rw [h2, hc], ?_, h4, ?_⟩
  · rw [h3, hcorrect]
  · rw [h5, hqs, hc, hlen]

/-- C11. For every choice of five selections, the run `startQuiz`, then for each question
in order `submitQuizAnswer` followed by `nextQuestion`, returns a state with
`currentQuestion = 5`, `isActive = false`, five answer records, five questions, and a
score equal to the number of selections that equal the correct index of their question in
`QUIZ_QUESTIONS`. All-correct selections give score 5 and the top-tier message,
selections that are all incorrect give score 0 and the encouragement message. -/
theorem quizRun_scores (a : AppState) (s1 s2 s3 s4 s5 : Nat) :
    ∃ final : AppState,
      quizRun a [s1, s2, s3, s4, s5] = some final ∧
      final.quiz.currentQuestion = 5 ∧
      final.quiz.isActive = false ∧
      final.quiz.answers.length = 5 ∧
      final.quiz.questions.length = 5 ∧
      final.quiz.score =
        (List.zip [s1, s2, s3, s4, s5] (QUIZ_QUESTIONS.map (fun q => q.correct))).countP
          (fun p => p.1 == p.2) ∧
      ([s1, s2, s3, s4, s5] = QUIZ_QUESTIONS.map (fun q => q.correct) →
        final.quiz.score = 5 ∧
        shownScoreMessage final = "Excellent! You\x27re a study master! 🌟") ∧
      ((∀ p ∈ List.zip [s1, s2, s3, s4, s5] (QUIZ_QUESTIONS.map (fun q => q.correct)),
          p.1 ≠ p.2) →
        final.quiz.score = 0 ∧
        shownScoreMessage final = "Keep studying and try again! 📖") := by
  have h55 : getScoreMessage 5 5 = "Excellent! You\x27re a study master! 🌟" := by decide
  have h05 : getScoreMessage 0 5 = "Keep studying and try again! 📖" := by decide
  have hbank : QUIZ_QUESTIONS.map (fun q => q.correct) = [1, 2, 1, 2, 2] := rfl
  obtain ⟨a1, e1, q1, c1, sc1, l1, _⟩ :=
    answerAndAdvance_bank (startQuiz a) s1 0 rfl rfl (by decide)
  obtain ⟨a2, e2, q2, c2, sc2, l2, _⟩ := answerAndAdvance_bank a1 s2 1 q1 c1 (by decide)
  obtain ⟨a3, e3, q3, c3, sc3, l3, _⟩ := answerAndAdvance_bank a2 s3 2 q2 c2 (by decide)
  obtain ⟨a4, e4, q4, c4, sc4, l4, _⟩ := answerAndAdvance_bank a3 s4 3 q3 c3 (by decide)
  obtain ⟨a5, e5, q5, c5, sc5, l5, act5⟩ := answerAndAdvance_bank a4 s5 4 q4 c4 (by decide)
  have hrun : quizRun a [s1, s2, s3, s4, s5] = some a5 := by
    simp [quizRun, List.foldlM, e1, e2, e3, e4, e5]
  have hstart : (startQuiz a).quiz.score = 0 ∧ (startQuiz a).quiz.answers.length = 0 :=
    ⟨rfl, rfl⟩
  have hscore : a5.quiz.score =
      (if s1 = 1 then 1 else 0) + (if s2 = 2 then 1 else 0) + (if s3 = 1 then 1 else 0) +
      (if s4 = 2 then 1 else 0) + (if s5 = 2 then 1 else 0) := by
    rw [sc5, sc4, sc3, sc2, sc1, hstart.1, hbank]
    simp
  have htotal : a5.quiz.questions.length = 5 := by rw [q5]; rfl
  refine ⟨a5, hrun, c5, ?_, ?_, htotal, ?_, ?_, ?_⟩
  · rw [act5]
    rfl
  · rw [l5, l4, l3, l2, l1, hstart.2]
  · rw [hscore, hbank]
    by_cases h1 : s1 = 1 <;> by_cases h2 : s2 = 2 <;> by_cases h3 : s3 = 1 <;>
      by_cases h4 : s4 = 2 <;> by_cases h5 : s5 = 2 <;>
      simp [List.countP_cons, h1, h2, h3, h4, h5]
  · intro hall
    rw [hbank] at hall
    simp only [List.cons.injEq, and_true] at hall
    obtain ⟨h1, h2, h3, h4, h5⟩ := hall
    have hs5 : a5.quiz.score = 5 := by rw [hscore]; simp [h1, h2, h3, h4, h5]
    exact ⟨hs5, by rw [shownScoreMessage, hs5, htotal, h55]⟩
  · intro hnone
    rw [hbank] at hnone
    have h1 : s1 ≠ 1 := hnone (s1, 1) (by simp)
    have h2 : s2 ≠ 2 := hnone (s2, 2) (by simp)
    have h3 : s3 ≠ 1 := hnone (s3, 1) (by simp)
    have h4 : s4 ≠ 2 := hnone (s4, 2) (by simp)
    have h5 : s5 ≠ 2 := hnone (s5, 2) (by simp)
    have hs0 : a5.quiz.score = 0 := by rw [hscore]; simp [h1, h2, h3, h4, h5]
    exact ⟨hs0, by rw [shownScoreMessage, hs0, htotal, h05]⟩

/-- C11 at concrete selections: the all-correct run and the run that always selects
option 0, which is correct for no question. -/
theorem quizRun_scores_witness :
    (∃ final : AppState, quizRun initialAppState [1, 2, 1, 2, 2] = some final ∧
      final.quiz.score = 5 ∧
      shownScoreMessage final = "Excellent! You\x27re a study master! 🌟") ∧
    (∃ final : AppState, quizRun initialAppState [0, 0, 0, 0, 0] = some final ∧
      final.quiz.score = 0 ∧
      shownScoreMessage final = "Keep studying and try again! 📖") :=
  ⟨(quizRun_scores initialAppState 1 2 1 2 2).elim
      (fun final h => ⟨final, h.1, h.2.2.2.2.2.2.1 rfl⟩),
   (quizRun_scores initialAppState 0 0 0 0 0).elim
      (fun final h => ⟨final, h.1, h.2.2.2.2.2.2.2 (by decide)⟩)⟩

/-! ## Rounding to a double -/

theorem bitLengthAux_spec (fuel n : Nat) (h : n ≤ fuel) :
    n < 2 ^ bitLengthAux fuel n ∧ (0 < n → 2 ^ bitLengthAux fuel n ≤ 2 * n) := by
  induction fuel generalizing n with
  | zero =>
    have hn : n = 0 := by omega
    subst hn
    simp [bitLengthAux]
  | succ fuel ih =>
    by_cases hn : n = 0
    · subst hn
      simp [bitLengthAux]
    · have hhalf : n / 2 ≤ fuel := by omega
      obtain ⟨h1, h2⟩ := ih (n / 2) hhalf
      have hdef : bitLengthAux (fuel + 1) n = bitLengthAux fuel (n / 2) + 1 := by
        simp [bitLengthAux, hn]
      rw [hdef, Nat.pow_succ]
      constructor
      · omega
      · intro _
        by_cases hz : n / 2 = 0
        · have hone : n = 1 := by omega
          have hk : bitLengthAux fuel (n / 2) = 0 := by
            rw [hz]
            cases fuel <;> simp [bitLengthAux]
          rw [hk, hone]
        · have := h2 (by omega)
          omega

theorem bitLength_spec (n : Nat) (hn : 0 < n) :
    n < 2 ^ bitLength n ∧ 2 ^ bitLength n ≤ 2 * n :=
  ⟨(bitLengthAux_spec n n (Nat.le_refl n)).1, (bitLengthAux_spec n n (Nat.le_refl n)).2 hn⟩

/-- The result of `roundQuot n d` is within one half of `n / d`. -/
theorem roundQuot_near (n d : Nat) (hd : 0 < d) :
    2 * n ≤ 2 * (roundQuot n d * d) + d ∧ 2 * (roundQuot n d * d) ≤ 2 * n + d := by
  have hdiv : d * (n / d) + n % d = n := Nat.div_add_mod n d
  have hmod : n % d < d := Nat.mod_lt n hd
  have hcomm : n / d * d = d * (n / d) := Nat.mul_comm _ _
  unfold roundQuot
  by_cases h1 : 2 * (n % d) < d
  · simp only [h1, if_true]
    omega
  · by_cases h2 : d < 2 * (n % d)
    · simp only [h1, h2, if_true, if_false, Nat.add_mul, Nat.one_mul]
      omega
    · by_cases h3 : n / d % 2 = 0
      · simp only [h1, h2, h3, if_true, if_false]
        omega
      · simp only [h1, h2, h3, if_false, Nat.add_mul, Nat.one_mul]
        omega

/-- Rounding a quotient of at least `2 ^ 52` to an integer changes it by a factor within
`1 ± 2 ^ (-53)`; so does the same rounding at any binary scale. -/
theorem roundQuot_value (N D : Nat) (e : Int) (hD : 0 < D) (hN : 2 ^ 52 * D ≤ N) :
    (N : ℚ) / (D : ℚ) * (2 : ℚ) ^ e * (1 - 1 / 2 ^ 53) ≤ finiteValue (roundQuot N D) e ∧
    finiteValue (roundQuot N D) e ≤ (N : ℚ) / (D : ℚ) * (2 : ℚ) ^ e * (1 + 1 / 2 ^ 53) := by
  obtain ⟨h1, h2⟩ := roundQuot_near N D hD
  have hd : (0 : ℚ) < (D : ℚ) := by exact_mod_cast hD
  have hP : (0 : ℚ) < (2 : ℚ) ^ e := zpow_pos (by norm_num) e
  have c1 : (2 : ℚ) * N ≤ 2 * ((roundQuot N D : ℚ) * D) + D := by exact_mod_cast h1
  have c2 : (2 : ℚ) * ((roundQuot N D : ℚ) * D) ≤ 2 * N + D := by exact_mod_cast h2
  have c3 : (2 : ℚ) ^ 52 * D ≤ N := by exact_mod_cast hN
  have hlow : (N : ℚ) / D * (1 - 1 / 2 ^ 53) ≤ (roundQuot N D : ℚ) := by
    rw [div_mul_eq_mul_div, div_le_iff₀ hd]
    norm_num at c3 ⊢
    linarith
  have hhigh : (roundQuot N D : ℚ) ≤ (N : ℚ) / D * (1 + 1 / 2 ^ 53) := by
    rw [div_mul_eq_mul_div, le_div_iff₀ hd]
    norm_num at c3 ⊢
    linarith
  unfold finiteValue
  constructor
  · calc (N : ℚ) / D * (2 : ℚ) ^ e * (1 - 1 / 2 ^ 53)
        = ((N : ℚ) / D * (1 - 1 / 2 ^ 53)) * (2 : ℚ) ^ e := by ring
      _ ≤ (roundQuot N D : ℚ) * (2 : ℚ) ^ e := mul_le_mul_of_nonneg_right hlow hP.le
  · calc (roundQuot N D : ℚ) * (2 : ℚ) ^ e
        ≤ ((N : ℚ) / D * (1 + 1 / 2 ^ 53)) * (2 : ℚ) ^ e :=
          mul_le_mul_of_nonneg_right hhigh hP.le
      _ = (N : ℚ) / D * (2 : ℚ) ^ e * (1 + 1 / 2 ^ 53) := by ring

theorem two_zpow_sub (x y : Nat) (k : Nat) :
    (2 : ℚ) ^ ((x : Int) - (y : Int) - (k : Int)) = (2 : ℚ) ^ x / ((2 : ℚ) ^ y * (2 : ℚ) ^ k) := by
  rw [zpow_sub₀ (two_ne_zero), zpow_sub₀ (two_ne_zero), zpow_natCast, zpow_natCast,
    zpow_natCast, div_div]

theorem scaled_fraction_eq (a b x y : Nat) (hb : 0 < b) :
    ((a * 2 ^ (53 + y) : Nat) : ℚ) / ((b * 2 ^ x : Nat) : ℚ)
      * (2 : ℚ) ^ ((x : Int) - (y : Int) - 53) = (a : ℚ) / (b : ℚ) := by
  have hb' : (b : ℚ) ≠ 0 := by exact_mod_cast hb.ne'
  have h := two_zpow_sub x y 53
  simp only [Nat.cast_ofNat] at h
  rw [h]
  push_cast
  field_simp
  ring

theorem scaled_fraction_eq_half (a b x y : Nat) (hb : 0 < b) :
    ((a * 2 ^ (53 + y) : Nat) : ℚ) / ((2 * (b * 2 ^ x) : Nat) : ℚ)
      * (2 : ℚ) ^ ((x : Int) - (y : Int) - 52) = (a : ℚ) / (b : ℚ) := by
  have hb' : (b : ℚ) ≠ 0 := by exact_mod_cast hb.ne'
  have h := two_zpow_sub x y 52
  simp only [Nat.cast_ofNat] at h
  rw [h]
  push_cast
  field_simp
  ring

/-- The function `roundScaled` returns a finite number whose value is the fraction times a
factor within `1 ± 2 ^ (-53)`. -/
theorem roundScaled_value (a b : Nat) (ha : 0 < a) (hb : 0 < b) :
    ∃ (m : Nat) (e : Int), roundScaled a b = JsNumber.finite m e ∧
      (a : ℚ) / (b : ℚ) * (1 - 1 / 2 ^ 53) ≤ finiteValue m e ∧
      finiteValue m e ≤ (a : ℚ) / (b : ℚ) * (1 + 1 / 2 ^ 53) := by
  obtain ⟨_, ha2⟩ := bitLength_spec a ha
  obtain ⟨hb1, _⟩ := bitLength_spec b hb
  have hD : 0 < b * 2 ^ bitLength a := Nat.mul_pos hb (Nat.pow_pos (by decide))
  have hlow : 2 ^ 52 * (b * 2 ^ bitLength a) ≤ a * 2 ^ (53 + bitLength b) := by
    calc 2 ^ 52 * (b * 2 ^ bitLength a)
        ≤ 2 ^ 52 * (b * (2 * a)) := Nat.mul_le_mul_left _ (Nat.mul_le_mul_left _ ha2)
      _ = a * (2 ^ 53 * b) := by ring
      _ ≤ a * (2 ^ 53 * 2 ^ bitLength b) :=
          Nat.mul_le_mul_left _ (Nat.mul_le_mul_left _ hb1.le)
      _ = a * 2 ^ (53 + bitLength b) := by rw [Nat.pow_add]
  unfold roundScaled
  by_cases hq : a * 2 ^ (53 + bitLength b) / (b * 2 ^ bitLength a) < 2 ^ 53
  · simp only [hq, if_true]
    refine ⟨_, _, rfl, ?_⟩
    have h := roundQuot_value (a * 2 ^ (53 + bitLength b)) (b * 2 ^ bitLength a)
      ((bitLength a : Int) - (bitLength b : Int) - 53) hD hlow
    rw [scaled_fraction_eq a b (bitLength a) (bitLength b) hb] at h
    exact h
  · simp only [hq, if_false]
    refine ⟨_, _, rfl, ?_⟩
    have hge : 2 ^ 53 ≤ a * 2 ^ (53 + bitLength b) / (b * 2 ^ bitLength a) := by omega
    have hmul : 2 ^ 53 * (b * 2 ^ bitLength a) ≤ a * 2 ^ (53 + bitLength b) :=
      (Nat.le_div_iff_mul_le hD).mp hge
    have hlow2 : 2 ^ 52 * (2 * (b * 2 ^ bitLength a)) ≤ a * 2 ^ (53 + bitLength b) := by
      calc 2 ^ 52 * (2 * (b * 2 ^ bitLength a)) = 2 ^ 53 * (b * 2 ^ bitLength a) := by ring
        _ ≤ a * 2 ^ (53 + bitLength b) := hmul
    have h := roundQuot_value (a * 2 ^ (53 + bitLength b)) (2 * (b * 2 ^ bitLength a))
      ((bitLength a : Int) - (bitLength b : Int) - 52) (by omega) hlow2
    rw [scaled_fraction_eq_half a b (bitLength a) (bitLength b) hb] at h
    exact h

/-- The function `roundRatio` returns a finite number whose value is `n / d` times a factor
within `1 ± 2 ^ (-53)`. -/
theorem roundRatio_value (n d : Nat) (hn : 0 < n) (hd : 0 < d) :
    ∃ (m : Nat) (e : Int), roundRatio n d = JsNumber.finite m e ∧
      (n : ℚ) / (d : ℚ) * (1 - 1 / 2 ^ 53) ≤ finiteValue m e ∧
      finiteValue m e ≤ (n : ℚ) / (d : ℚ) * (1 + 1 / 2 ^ 53) := by
  have hg : 0 < Nat.gcd n d := Nat.gcd_pos_of_pos_left d hn
  have hgn : Nat.gcd n d ∣ n := Nat.gcd_dvd_left n d
  have hgd : Nat.gcd n d ∣ d := Nat.gcd_dvd_right n d
  have ha : 0 < n / Nat.gcd n d := Nat.div_pos (Nat.le_of_dvd hn hgn) hg
  have hb : 0 < d / Nat.gcd n d := Nat.div_pos (Nat.le_of_dvd hd hgd) hg
  have hg' : ((Nat.gcd n d : Nat) : ℚ) ≠ 0 := by exact_mod_cast hg.ne'
  have hd' : (d : ℚ) ≠ 0 := by exact_mod_cast hd.ne'
  have hfrac : ((n / Nat.gcd n d : Nat) : ℚ) / ((d / Nat.gcd n d : Nat) : ℚ)
      = (n : ℚ) / (d : ℚ) := by
    rw [Nat.cast_div hgn hg', Nat.cast_div hgd hg']
    field_simp
  obtain ⟨m, e, h, h1, h2⟩ := roundScaled_value _ _ ha hb
  rw [hfrac] at h1 h2
  exact ⟨m, e, h, h1, h2⟩

/-- The function `roundRatio` depends on the value of the fraction only. -/
theorem roundRatio_mul_left (k n d : Nat) (hk : 0 < k) :
    roundRatio (k * n) (k * d) = roundRatio n d := by
  unfold roundRatio
  rw [Nat.gcd_mul_left, Nat.mul_div_mul_left _ _ hk, Nat.mul_div_mul_left _ _ hk]

/-- The comparison `jsGe` of a finite number is the comparison of its value. -/
theorem jsGe_finite (m : Nat) (e : Int) (c : Nat) :
    jsGe (JsNumber.finite m e) c = true ↔ (c : ℚ) ≤ finiteValue m e := by
  unfold jsGe finiteValue
  by_cases he : 0 ≤ e
  · simp only [he, if_true, decide_eq_true_eq]
    have hcast : (2 : ℚ) ^ e = ((2 ^ e.toNat : Nat) : ℚ) := by
      rw [← Int.toNat_of_nonneg he, zpow_natCast, Int.toNat_of_nonneg he]
      push_cast
      rfl
    rw [hcast]
    exact_mod_cast Iff.rfl
  · simp only [he, if_false, decide_eq_true_eq]
    have hneg : 0 ≤ -e := by omega
    have hcast : (2 : ℚ) ^ e = (((2 ^ (-e).toNat : Nat) : ℚ))⁻¹ := by
      have h1 : e = -(((-e).toNat : Nat) : Int) := by rw [Int.toNat_of_nonneg hneg]; omega
      rw [h1, zpow_neg, zpow_natCast, ← h1]
      push_cast
      rfl
    have hpos : (0 : ℚ) < ((2 ^ (-e).toNat : Nat) : ℚ) := by
      exact_mod_cast Nat.pow_pos (by decide)
    rw [hcast, ← div_eq_mul_inv, le_div_iff₀ hpos]
    exact_mod_cast Iff.rfl

/-- The product of a positive finite number by a positive integer is its exact product
times a factor within `1 ± 2 ^ (-53)`. -/
theorem jsMul_value (m : Nat) (e : Int) (k : Nat) (hm : 0 < m) (hk : 0 < k) :
    ∃ (m2 : Nat) (e2 : Int), jsMul (JsNumber.finite m e) k = JsNumber.finite m2 e2 ∧
      finiteValue m e * (k : ℚ) * (1 - 1 / 2 ^ 53) ≤ finiteValue m2 e2 ∧
      finiteValue m2 e2 ≤ finiteValue m e * (k : ℚ) * (1 + 1 / 2 ^ 53) := by
  have hm0 : m ≠ 0 := hm.ne'
  by_cases he : 0 ≤ e
  · have hjs : jsMul (JsNumber.finite m e) k = roundRatio (m * k * 2 ^ e.toNat) 1 := by
      simp [jsMul, hm0, he]
    have hpos : 0 < m * k * 2 ^ e.toNat :=
      Nat.mul_pos (Nat.mul_pos hm hk) (Nat.pow_pos (by decide))
    obtain ⟨m2, e2, h, h1, h2⟩ := roundRatio_value _ 1 hpos (by decide)
    have hval : ((m * k * 2 ^ e.toNat : Nat) : ℚ) / ((1 : Nat) : ℚ)
        = finiteValue m e * (k : ℚ) := by
      unfold finiteValue
      have hcast : (2 : ℚ) ^ e = (2 : ℚ) ^ e.toNat := by
        rw [← zpow_natCast, Int.toNat_of_nonneg he]
      rw [hcast]
      push_cast
      ring
    rw [hval] at h1 h2
    exact ⟨m2, e2, by rw [hjs, h], h1, h2⟩
  · have hjs : jsMul (JsNumber.finite m e) k = roundRatio (m * k) (2 ^ (-e).toNat) := by
      simp [jsMul, hm0, he]
    have hneg : 0 ≤ -e := by omega
    obtain ⟨m2, e2, h, h1, h2⟩ :=
      roundRatio_value (m * k) (2 ^ (-e).toNat) (Nat.mul_pos hm hk) (Nat.pow_pos (by decide))
    have hval : ((m * k : Nat) : ℚ) / ((2 ^ (-e).toNat : Nat) : ℚ)
        = finiteValue m e * (k : ℚ) := by
      unfold finiteValue
      have hcast : (2 : ℚ) ^ e = ((2 : ℚ) ^ (-e).toNat)⁻¹ := by
        have h1 : e = -(((-e).toNat : Nat) : Int) := by
          rw [Int.toNat_of_nonneg hneg]; omega
        rw [h1, zpow_neg, zpow_natCast, ← h1]
      rw [hcast]
      push_cast
      field_simp
    rw [hval] at h1 h2
    exact ⟨m2, e2, by rw [hjs, h], h1, h2⟩

/-- The model on doubles every JavaScript engine prints: `0.57 * 100` is
`56.99999999999999` (`8022036836253695 * 2 ^ (-47)`), `0.07 * 100` is `7.000000000000001`
(`7881299347898369 * 2 ^ (-50)`), and `0.9 * 100` is exactly `90`. -/
theorem jsMul_jsDiv_examples :
    jsMul (jsDiv 57 100) 100 = JsNumber.finite 8022036836253695 (-47) ∧
    jsMul (jsDiv 7 100) 100 = JsNumber.finite 7881299347898369 (-50) ∧
    jsMul (jsDiv 9 10) 100 = JsNumber.finite 6333186975989760 (-46) := by
  decide

/-! ## The percentage computed by `getScoreMessage` -/

theorem finiteValue_pos_mant (m : Nat) (e : Int) (h : 0 < finiteValue m e) : 0 < m := by
  rcases Nat.eq_zero_or_pos m with hm | hm
  · rw [hm] at h
    simp [finiteValue] at h
  · exact hm

/-- For positive integers, `(score / total) * 100` is a finite number whose value is the
exact percentage times a factor between `(1 - 2 ^ (-53)) ^ 2` and `(1 + 2 ^ (-53)) ^ 2`. -/
theorem percentage_value (s t : Nat) (hs : 0 < s) (ht : 0 < t) :
    ∃ (m : Nat) (e : Int), jsMul (jsDiv s t) 100 = JsNumber.finite m e ∧
      exactPercentage s t * (1 - 1 / 2 ^ 53) ^ 2 ≤ finiteValue m e ∧
      finiteValue m e ≤ exactPercentage s t * (1 + 1 / 2 ^ 53) ^ 2 := by
  have hdiv : jsDiv s t = roundRatio s t := by
    simp [jsDiv, hs.ne', ht.ne']
  obtain ⟨m1, e1, h1, hlo1, hhi1⟩ := roundRatio_value s t hs ht
  have hq : (0 : ℚ) < (s : ℚ) / (t : ℚ) :=
    div_pos (by exact_mod_cast hs) (by exact_mod_cast ht)
  have hv1 : 0 < finiteValue m1 e1 := by
    have hfac : (0 : ℚ) < 1 - 1 / 2 ^ 53 := by norm_num
    exact lt_of_lt_of_le (mul_pos hq hfac) hlo1
  have hm1 : 0 < m1 := finiteValue_pos_mant m1 e1 hv1
  obtain ⟨m2, e2, h2, hlo2, hhi2⟩ := jsMul_value m1 e1 100 hm1 (by decide)
  refine ⟨m2, e2, by rw [hdiv, h1, h2], ?_, ?_⟩
  · have hfac : (0 : ℚ) ≤ 100 * (1 - 1 / 2 ^ 53) := by norm_num
    calc exactPercentage s t * (1 - 1 / 2 ^ 53) ^ 2
        = ((s : ℚ) / (t : ℚ) * (1 - 1 / 2 ^ 53)) * (100 * (1 - 1 / 2 ^ 53)) := by
          unfold exactPercentage; ring
      _ ≤ finiteValue m1 e1 * (100 * (1 - 1 / 2 ^ 53)) :=
          mul_le_mul_of_nonneg_right hlo1 hfac
      _ = finiteValue m1 e1 * ((100 : Nat) : ℚ) * (1 - 1 / 2 ^ 53) := by push_cast; ring
      _ ≤ finiteValue m2 e2 := hlo2
  · have hfac : (0 : ℚ) ≤ 100 * (1 + 1 / 2 ^ 53) := by norm_num
    calc finiteValue m2 e2
        ≤ finiteValue m1 e1 * ((100 : Nat) : ℚ) * (1 + 1 / 2 ^ 53) := hhi2
      _ = finiteValue m1 e1 * (100 * (1 + 1 / 2 ^ 53)) := by push_cast; ring
      _ ≤ ((s : ℚ) / (t : ℚ) * (1 + 1 / 2 ^ 53)) * (100 * (1 + 1 / 2 ^ 53)) :=
          mul_le_mul_of_nonneg_right hhi1 hfac
      _ = exactPercentage s t * (1 + 1 / 2 ^ 53) ^ 2 := by
          unfold exactPercentage; ring

theorem rounding_stays_below (S T : ℚ) (hS : 0 ≤ S) (h : S + 1 ≤ T) (hT : T ≤ 9 * 10 ^ 14) :
    S * (1 + 1 / 2 ^ 53) ^ 2 < T := by
  have hsq : (1 + 1 / 2 ^ 53 : ℚ) ^ 2 ≤ 1 + 3 / 2 ^ 53 := by norm_num
  have h1 : S * (1 + 1 / 2 ^ 53) ^ 2 ≤ S * (1 + 3 / 2 ^ 53) :=
    mul_le_mul_of_nonneg_left hsq hS
  have h2 : S * (1 + 3 / 2 ^ 53) < S + 1 := by
    norm_num
    linarith
  linarith

theorem rounding_stays_above (S T : ℚ) (hT0 : 0 ≤ T) (h : T + 1 ≤ S) (hT : T ≤ 9 * 10 ^ 14) :
    T ≤ S * (1 - 1 / 2 ^ 53) ^ 2 := by
  have hsq : (1 - 2 / 2 ^ 53 : ℚ) ≤ (1 - 1 / 2 ^ 53) ^ 2 := by norm_num
  have hnn : (0 : ℚ) ≤ (1 - 1 / 2 ^ 53) ^ 2 := by positivity
  have h1 : (T + 1) * (1 - 1 / 2 ^ 53) ^ 2 ≤ S * (1 - 1 / 2 ^ 53) ^ 2 :=
    mul_le_mul_of_nonneg_right h hnn
  have h2 : (T + 1) * (1 - 2 / 2 ^ 53) ≤ (T + 1) * (1 - 1 / 2 ^ 53) ^ 2 :=
    mul_le_mul_of_nonneg_left hsq (by linarith)
  have h3 : T ≤ (T + 1) * (1 - 2 / 2 ^ 53) := by
    norm_num
    linarith
  linarith

theorem percentage_below (s t c : Nat) (ht : 0 < t) (h : 100 * s + 1 ≤ c * t)
    (hct : c * t ≤ 9 * 10 ^ 14) :
    exactPercentage s t * (1 + 1 / 2 ^ 53) ^ 2 < (c : ℚ) := by
  have ht' : (0 : ℚ) < (t : ℚ) := by exact_mod_cast ht
  have h' : (100 : ℚ) * s + 1 ≤ (c : ℚ) * t := by exact_mod_cast h
  have hct' : (c : ℚ) * t ≤ 9 * 10 ^ 14 := by exact_mod_cast hct
  have hS : (0 : ℚ) ≤ 100 * (s : ℚ) := by positivity
  have hlt := rounding_stays_below (100 * (s : ℚ)) ((c : ℚ) * t) hS h' hct'
  have heq : exactPercentage s t * (1 + 1 / 2 ^ 53) ^ 2
      = 100 * (s : ℚ) * (1 + 1 / 2 ^ 53) ^ 2 / (t : ℚ) := by
    unfold exactPercentage; ring
  rw [heq, div_lt_iff₀ ht']
  exact hlt

theorem percentage_above (s t c : Nat) (ht : 0 < t) (h : c * t + 1 ≤ 100 * s)
    (hct : c * t ≤ 9 * 10 ^ 14) :
    (c : ℚ) ≤ exactPercentage s t * (1 - 1 / 2 ^ 53) ^ 2 := by
  have ht' : (0 : ℚ) < (t : ℚ) := by exact_mod_cast ht
  have h' : (c : ℚ) * t + 1 ≤ 100 * (s : ℚ) := by exact_mod_cast h
  have hct' : (c : ℚ) * t ≤ 9 * 10 ^ 14 := by exact_mod_cast hct
  have hT : (0 : ℚ) ≤ (c : ℚ) * t := by positivity
  have hle := rounding_stays_above (100 * (s : ℚ)) ((c : ℚ) * t) hT h' hct'
  have heq : exactPercentage s t * (1 - 1 / 2 ^ 53) ^ 2
      = 100 * (s : ℚ) * (1 - 1 / 2 ^ 53) ^ 2 / (t : ℚ) := by
    unfold exactPercentage; ring
  rw [heq, le_div_iff₀ ht']
  exact hle

theorem jsDiv_mul_left (k a b : Nat) (hk : 0 < k) (ha : 0 < a) (hb : 0 < b) :
    jsDiv (k * a) (k * b) = jsDiv a b := by
  have h1 : k * a ≠ 0 := (Nat.mul_pos hk ha).ne'
  have h2 : k * b ≠ 0 := (Nat.mul_pos hk hb).ne'
  simp only [jsDiv, h1, h2, ha.ne', hb.ne', if_false]
  exact roundRatio_mul_left k a b hk

/-- On a percentage that is exactly a threshold the comparison succeeds: the two roundings
of `9/10`, `4/5`, `7/10` and `3/5` times 100 give back 90, 80, 70 and 60. -/
theorem jsGe_at_threshold (k : Nat) (hk : 0 < k) :
    jsGe (jsMul (jsDiv (k * 9) (k * 10)) 100) 90 = true ∧
    jsGe (jsMul (jsDiv (k * 4) (k * 5)) 100) 80 = true ∧
    jsGe (jsMul (jsDiv (k * 7) (k * 10)) 100) 70 = true ∧
    jsGe (jsMul (jsDiv (k * 3) (k * 5)) 100) 60 = true := by
  rw [jsDiv_mul_left k 9 10 hk (by decide) (by decide),
    jsDiv_mul_left k 4 5 hk (by decide) (by decide),
    jsDiv_mul_left k 7 10 hk (by decide) (by decide),
    jsDiv_mul_left k 3 5 hk (by decide) (by decide)]
  decide

/-- For a total of at most `10 ^ 13`, each comparison `percentage >= c` in `getScoreMessage`
has the result of the exact comparison `c * total ≤ 100 * score`. -/
theorem jsGe_percentage_iff (s t c : Nat) (ht : 0 < t) (hB : t ≤ 10 ^ 13)
    (hc : c = 60 ∨ c = 70 ∨ c = 80 ∨ c = 90) :
    jsGe (jsMul (jsDiv s t) 100) c = true ↔ c * t ≤ 100 * s := by
  have hB' : t ≤ 10000000000000 := by simpa using hB
  rcases Nat.eq_zero_or_pos s with hs | hs
  · subst hs
    have hval : jsMul (jsDiv 0 t) 100 = JsNumber.finite 0 0 := by
      simp [jsDiv, jsMul, ht.ne']
    rw [hval]
    rcases hc with rfl | rfl | rfl | rfl <;> simp [jsGe] <;> omega
  · have hct : c * t ≤ 9 * 10 ^ 14 := by
      rcases hc with rfl | rfl | rfl | rfl <;> norm_num <;> omega
    rcases Nat.lt_trichotomy (100 * s) (c * t) with hlt | heq | hgt
    · obtain ⟨m, e, hp, _, hhi⟩ := percentage_value s t hs ht
      rw [hp, jsGe_finite]
      have hbelow := percentage_below s t c ht hlt hct
      constructor
      · intro hge
        exact absurd (lt_of_le_of_lt (le_trans hge hhi) hbelow) (lt_irrefl _)
      · intro hle
        omega
    · constructor
      · intro _
        omega
      · intro _
        rcases hc with rfl | rfl | rfl | rfl
        · have h1 : s = t / 5 * 3 := by omega
          have h2 : t = t / 5 * 5 := by omega
          have hk : 0 < t / 5 := by omega
          rw [h1]
          nth_rewrite 2 [h2]
          exact (jsGe_at_threshold (t / 5) hk).2.2.2
        · have h1 : s = t / 10 * 7 := by omega
          have h2 : t = t / 10 * 10 := by omega
          have hk : 0 < t / 10 := by omega
          rw [h1]
          nth_rewrite 2 [h2]
          exact (jsGe_at_threshold (t / 10) hk).2.2.1
        · have h1 : s = t / 5 * 4 := by omega
          have h2 : t = t / 5 * 5 := by omega
          have hk : 0 < t / 5 := by omega
          rw [h1]
          nth_rewrite 2 [h2]
          exact (jsGe_at_threshold (t / 5) hk).2.1
        · have h1 : s = t / 10 * 9 := by omega
          have h2 : t = t / 10 * 10 := by omega
          have hk : 0 < t / 10 := by omega
          rw [h1]
          nth_rewrite 2 [h2]
          exact (jsGe_at_threshold (t / 10) hk).1
    · obtain ⟨m, e, hp, hlo, _⟩ := percentage_value s t hs ht
      rw [hp, jsGe_finite]
      have habove := percentage_above s t c ht hgt hct
      constructor
      · intro _
        omega
      · intro _
        exact le_trans habove hlo

theorem le_exactPercentage_iff (s t c : Nat) (ht : 0 < t) :
    (c : ℚ) ≤ exactPercentage s t ↔ c * t ≤ 100 * s := by
  have ht' : (0 : ℚ) < (t : ℚ) := by exact_mod_cast ht
  unfold exactPercentage
  rw [le_div_iff₀ ht']
  exact_mod_cast Iff.rfl

theorem getScoreMessage_eq (s t : Nat) (ht : 0 < t) (hB : t ≤ 10 ^ 13) :
    getScoreMessage s t =
      if 90 * t ≤ 100 * s then "Excellent! You\x27re a study master! 🌟"
      else if 80 * t ≤ 100 * s then "Great job! You know your stuff! 👏"
      else if 70 * t ≤ 100 * s then "Good work! Keep studying! 📚"
      else if 60 * t ≤ 100 * s then "Not bad! Room for improvement! 💪"
      else "Keep studying and try again! 📖" := by
  have h90 := jsGe_percentage_iff s t 90 ht hB (by decide)
  have h80 := jsGe_percentage_iff s t 80 ht hB (by decide)
  have h70 := jsGe_percentage_iff s t 70 ht hB (by decide)
  have h60 := jsGe_percentage_iff s t 60 ht hB (by decide)
  unfold getScoreMessage
  simp only [h90, h80, h70, h60]

/-- C12 (as amended). For every total with `0 < total ≤ 10 ^ 13` and every score with
`score ≤ total`, with the percentage `100 × score / total` taken as an exact rational,
`getScoreMessage(score, total)` is the top-tier message iff the percentage is at least 90,
the high-tier message iff it is in `[80, 90)`, the mid-tier message iff it is in
`[70, 80)`, the low-pass message iff it is in `[60, 70)` and the encouragement message iff
it is below 60; the five bands, which are disjoint intervals, cover every such input. The
bound on the total keeps both arguments exact as JavaScript numbers and the two roundings
of `(score / total) * 100` away from the thresholds. -/
theorem getScoreMessage_bands (score total : Nat) (ht : 0 < total) (_hs : score ≤ total)
    (hB : total ≤ 10 ^ 13) :
    (getScoreMessage score total = "Excellent! You\x27re a study master! 🌟" ↔
      90 ≤ exactPercentage score total) ∧
    (getScoreMessage score total = "Great job! You know your stuff! 👏" ↔
      80 ≤ exactPercentage score total ∧ exactPercentage score total < 90) ∧
    (getScoreMessage score total = "Good work! Keep studying! 📚" ↔
      70 ≤ exactPercentage score total ∧ exactPercentage score total < 80) ∧
    (getScoreMessage score total = "Not bad! Room for improvement! 💪" ↔
      60 ≤ exactPercentage score total ∧ exactPercentage score total < 70) ∧
    (getScoreMessage score total = "Keep studying and try again! 📖" ↔
      exactPercentage score total < 60) ∧
    (90 ≤ exactPercentage score total ∨
      (80 ≤ exactPercentage score total ∧ exactPercentage score total < 90) ∨
      (70 ≤ exactPercentage score total ∧ exactPercentage score total < 80) ∨
      (60 ≤ exactPercentage score total ∧ exactPercentage score total < 70) ∨
      exactPercentage score total < 60) := by
  have p90 := le_exactPercentage_iff score total 90 ht
  have p80 := le_exactPercentage_iff score total 80 ht
  have p70 := le_exactPercentage_iff score total 70 ht
  have p60 := le_exactPercentage_iff score total 60 ht
  simp only [Nat.cast_ofNat] at p90 p80 p70 p60
  rw [getScoreMessage_eq score total ht hB]
  simp only [← not_le, p90, p80, p70, p60]
  refine ⟨?_, ?_, ?_, ?_, ?_, by omega⟩
  · by_cases h90 : 90 * total ≤ 100 * score
    · simp [h90]
    · by_cases h80 : 80 * total ≤ 100 * score
      · simp [h90, h80]
      · by_cases h70 : 70 * total ≤ 100 * score
        · simp [h90, h80, h70]
        · by_cases h60 : 60 * total ≤ 100 * score <;> simp [h90, h80, h70, h60]
  · by_cases h90 : 90 * total ≤ 100 * score
    · simp [h90]
    · by_cases h80 : 80 * total ≤ 100 * score
      · simp [h90, h80]
      · by_cases h70 : 70 * total ≤ 100 * score
        · simp [h90, h80, h70]
        · by_cases h60 : 60 * total ≤ 100 * score <;> simp [h90, h80, h70, h60]
  · by_cases h90 : 90 * total ≤ 100 * score
    · have h70 : 70 * total ≤ 100 * score := by omega
      have h80 : 80 * total ≤ 100 * score := by omega
      simp [h90, h80, h70]
    · by_cases h80 : 80 * total ≤ 100 * score
      · have h70 : 70 * total ≤ 100 * score := by omega
        simp [h90, h80, h70]
      · by_cases h70 : 70 * total ≤ 100 * score
        · simp [h90, h80, h70]
        · by_cases h60 : 60 * total ≤ 100 * score <;> simp [h90, h80, h70, h60]
  · by_cases h90 : 90 * total ≤ 100 * score
    · have h70 : 70 * total ≤ 100 * score := by omega
      have h60 : 60 * total ≤ 100 * score := by omega
      simp [h90, h70, h60]
    · by_cases h80 : 80 * total ≤ 100 * score
      · have h70 : 70 * total ≤ 100 * score := by omega
        have h60 : 60 * total ≤ 100 * score := by omega
        simp [h90, h80, h70, h60]
      · by_cases h70 : 70 * total ≤ 100 * score
        · have h60 : 60 * total ≤ 100 * score := by omega
          simp [h90, h80, h70, h60]
        · by_cases h60 : 60 * total ≤ 100 * score <;> simp [h90, h80, h70, h60]
  · by_cases h90 : 90 * total ≤ 100 * score
    · have h60 : 60 * total ≤ 100 * score := by omega
      simp [h90, h60]
    · by_cases h80 : 80 * total ≤ 100 * score
      · have h60 : 60 * total ≤ 100 * score := by omega
        simp [h90, h80, h60]
      · by_cases h70 : 70 * total ≤ 100 * score
        · have h60 : 60 * total ≤ 100 * score := by omega
          simp [h90, h80, h70, h60]
        · by_cases h60 : 60 * total ≤ 100 * score <;> simp [h90, h80, h70, h60]

/-- C12, the claim as stated fails: for `score = 3600000000000008` and
`total = 4000000000000009`, both below `2 ^ 53` and so exact as JavaScript numbers, the exact
percentage is in `[80, 90)` but the double `(score / total) * 100` is 90 and
`getScoreMessage` returns the top-tier message. -/
theorem getScoreMessage_rounding_counterexample :
    (0 < 4000000000000009 ∧ 3600000000000008 ≤ 4000000000000009 ∧
      4000000000000009 < 2 ^ 53) ∧
    (80 ≤ exactPercentage 3600000000000008 4000000000000009 ∧
      exactPercentage 3600000000000008 4000000000000009 < 90) ∧
    jsMul (jsDiv 3600000000000008 4000000000000009) 100 = JsNumber.finite 6333186975989760 (-46) ∧
    finiteValue 6333186975989760 (-46) = 90 ∧
    getScoreMessage 3600000000000008 4000000000000009
      = "Excellent! You\x27re a study master! 🌟" := by
  refine ⟨by decide, ?_, by decide, ?_, by decide⟩
  · unfold exactPercentage
    norm_num
  · unfold finiteValue
    norm_num

/-- C12 at concrete scores out of 5: four correct answers give the high-tier message and
three give the low-pass message, as the exact percentages 80 and 60 require. -/
theorem getScoreMessage_bands_witness :
    (getScoreMessage 4 5 = "Great job! You know your stuff! 👏" ↔
      80 ≤ exactPercentage 4 5 ∧ exactPercentage 4 5 < 90) ∧
    (getScoreMessage 3 5 = "Not bad! Room for improvement! 💪" ↔
      60 ≤ exactPercentage 3 5 ∧ exactPercentage 3 5 < 70) :=
  ⟨(getScoreMessage_bands 4 5 (by decide) (by decide) (by decide)).2.1,
   (getScoreMessage_bands 3 5 (by decide) (by decide) (by decide)).2.2.2.1⟩

end StudyPal
